import Mathlib

/-!
Verification of the opkg package-manager core (libopkg) against its
natural-language specification.

The development shallowly embeds the C sources `pkg_depends.c`, `pkg_hash.c`
and `pkg_parse.c`.  Concrete packages are identified by their index into an
environment's package table (pointer identity in C becomes index identity),
abstract packages by their index into the abstract-package table.  The
null-terminated C arrays (`compound_depend_t[]`, `abstract_pkg_t *[]`)
become `Option (List _)` — `none` for a NULL pointer, and list entries for
the elements before the sentinel; loops that stop at a zero `type` sentinel
are modelled by an explicit stop on `UNSPEC`.

Code that this repository links against but that is not part of the given
sources (`pkg.c`, `pkg_vec.c`, `hash_table.c`, `parse_util.c`,
`opkg_utils.c`) is modelled as follows, from the specification:
`pkg_compare_versions` becomes an environment-supplied comparison oracle
`vercmp`, `pkg_get_arch_priority` an oracle `archPrio`, the sort comparator
`pkg_name_version_and_architecture_compare` an oracle `pkgLE`, while
`pkg_vec_insert` / `abstract_pkg_vec_insert` are plain appends and
`pkg_vec_contains` / `abstract_pkg_vec_contains` are pointer (index)
membership, matching their use throughout the given sources.
-/

/-- `enum version_constraint` from pkg_depends.h. -/
inductive version_constraint where
  | NONE
  | EARLIER
  | EARLIER_EQUAL
  | EQUAL
  | LATER_EQUAL
  | LATER
deriving DecidableEq, Repr

export version_constraint (NONE EARLIER EARLIER_EQUAL EQUAL LATER_EQUAL LATER)

/-- `enum depend_type` from pkg_depends.h; `UNSPEC` is the zero value used
as the array sentinel (`!compound_depend->type`). -/
inductive depend_type where
  | UNSPEC
  | DEPEND
  | PREDEPEND
  | RECOMMEND
  | SUGGEST
  | GREEDY_DEPEND
  | CONFLICTS
deriving DecidableEq, Repr

export depend_type (UNSPEC DEPEND PREDEPEND RECOMMEND SUGGEST GREEDY_DEPEND CONFLICTS)

/-- `enum pkg_state_want` from pkg.h. -/
inductive pkg_state_want where
  | SW_UNKNOWN
  | SW_INSTALL
  | SW_DEINSTALL
  | SW_PURGE
deriving DecidableEq, Repr

export pkg_state_want (SW_UNKNOWN SW_INSTALL SW_DEINSTALL SW_PURGE)

/-- `enum pkg_state_status` from pkg.h. -/
inductive pkg_state_status where
  | SS_NOT_INSTALLED
  | SS_UNPACKED
  | SS_HALF_CONFIGURED
  | SS_INSTALLED
  | SS_HALF_INSTALLED
  | SS_CONFIG_FILES
  | SS_POST_INST_FAILED
  | SS_REMOVAL_FAILED
deriving DecidableEq, Repr

export pkg_state_status (SS_NOT_INSTALLED SS_UNPACKED SS_HALF_CONFIGURED SS_INSTALLED
  SS_HALF_INSTALLED SS_CONFIG_FILES SS_POST_INST_FAILED SS_REMOVAL_FAILED)

/-- `enum pkg_state_flag` bit values from pkg.h. -/
def SF_REINSTREQ : Nat := 1

def SF_HOLD : Nat := 2

def SF_REPLACE : Nat := 4

def SF_NOPRUNE : Nat := 8

def SF_PREFER : Nat := 16

def SF_OBSOLETE : Nat := 32

def SF_MARKED : Nat := 64

def SF_FILELIST_CHANGED : Nat := 128

def SF_USER : Nat := 256

def SF_NEED_DETAIL : Nat := 512

/-- `depend_t` from pkg_depends.h.  `α` is the representation of the
abstract package referenced by the atom: an index (`Nat`) in the resolver
world, a name (`String`) in the parsing world where abstract identity is
the hash key.  `version` is `none` for a NULL `char *`. -/
structure depend_t (α : Type) where
  constraint : version_constraint
  version : Option String
  pkg : α
deriving DecidableEq, Repr

/-- `compound_depend_t` from pkg_depends.h.  `possibility_count` is
`possibilities.length`. -/
structure compound_depend_t (α : Type) where
  type : depend_type
  possibilities : List (depend_t α)
deriving DecidableEq, Repr

/-- `struct pkg` (pkg.h), restricted to the fields the given sources read.
`version` stands for the whole (epoch, version, revision) triple; it is only
ever consumed by the external comparison oracle.  The property-bag entries
`PKG_DEPENDS`, `PKG_CONFLICTS`, `PKG_REPLACES`, `PKG_PROVIDES` are `none`
when `pkg_get_ptr` would return NULL. -/
structure pkg_t where
  name : String
  version : String
  arch : String
  parent : Option Nat
  state_want : pkg_state_want
  state_flag : Nat
  state_status : pkg_state_status
  provided_by_hand : Bool
  depends : Option (List (compound_depend_t Nat))
  conflicts : Option (List (compound_depend_t Nat))
  replaces : Option (List Nat)
  provides : Option (List Nat)
deriving DecidableEq, Repr

/-- `struct abstract_pkg` (pkg.h), restricted to the fields the given
sources read (`depended_upon_by` is never consumed by them). -/
structure abstract_pkg_t where
  name : String
  pkgs : Option (List Nat)
  provided_by : List Nat
  replaced_by : Option (List Nat)
  state_status : pkg_state_status
deriving DecidableEq, Repr

/-- Zero record used when an out-of-range package index is dereferenced;
well-formed environments never hit it. -/
def pkg_default : pkg_t :=
  { name := "", version := "", arch := "", parent := none,
    state_want := SW_UNKNOWN, state_flag := 0, state_status := SS_NOT_INSTALLED,
    provided_by_hand := false, depends := none, conflicts := none,
    replaces := none, provides := none }

/-- Zero record used when an out-of-range abstract index is dereferenced. -/
def abs_default : abstract_pkg_t :=
  { name := "", pkgs := none, provided_by := [], replaced_by := none,
    state_status := SS_NOT_INSTALLED }

/-- The package index together with the external oracles (§6 of the spec):
`vercmp` models `pkg_compare_versions` composed with `parse_version` of the
constraint string, `archPrio` models `architecture_priority`, `cliArgv`
the user's command line, and `pkgLE` the total preorder used by
`pkg_vec_sort` with `pkg_name_version_and_architecture_compare`. -/
structure Env where
  pkgs : List pkg_t
  abs : List abstract_pkg_t
  vercmp : String → String → Int
  archPrio : String → Nat
  cliArgv : List String
  pkgLE : Nat → Nat → Bool

/-- Dereference a concrete-package pointer. -/
def Env.pkg (env : Env) (i : Nat) : pkg_t := env.pkgs.getD i pkg_default

/-- Dereference an abstract-package pointer. -/
def Env.absD (env : Env) (i : Nat) : abstract_pkg_t := env.abs.getD i abs_default

/-- `pkg_get_arch_priority` (pkg.c, not under src/): the priority of the
package's interned architecture, via the environment oracle. -/
def pkg_get_arch_priority (env : Env) (i : Nat) : Nat :=
  env.archPrio (env.pkg i).arch

/-- `version_constraints_satisfied` (pkg_depends.c:376).  The comparison of
the package against the parsed constraint version is the oracle call; the
branch cascade is translated verbatim — note the unconditional
`comparison == 0` branch. -/
def version_constraints_satisfied (env : Env) (depends : depend_t Nat) (p : pkg_t) : Bool :=
  if depends.constraint = NONE then true
  else
    let comparison := env.vercmp p.version (depends.version.getD "")
    if depends.constraint = EARLIER ∧ comparison < 0 then true
    else if depends.constraint = LATER ∧ comparison > 0 then true
    else if comparison = 0 then true
    else if depends.constraint = LATER_EQUAL ∧ comparison ≥ 0 then true
    else if depends.constraint = EARLIER_EQUAL ∧ comparison ≤ 0 then true
    else false

/-- `pkg_installed_and_constraint_satisfied` (pkg_depends.c:35). -/
def pkg_installed_and_constraint_satisfied (env : Env) (dep : depend_t Nat) (p : pkg_t) : Bool :=
  if (p.state_status = SS_INSTALLED ∨ p.state_status = SS_UNPACKED)
      ∧ version_constraints_satisfied env dep p then true else false

/-- `pkg_constraint_satisfied` (pkg_depends.c:46). -/
def pkg_constraint_satisfied (env : Env) (dep : depend_t Nat) (p : pkg_t) : Bool :=
  version_constraints_satisfied env dep p

/-- `is_pkg_in_pkg_vec` (pkg_depends.c:434): structural membership by
(name, compared version, architecture). -/
def is_pkg_in_pkg_vec (env : Env) (vec : List Nat) (i : Nat) : Bool :=
  vec.any fun j =>
    (env.pkg i).name = (env.pkg j).name
      ∧ env.vercmp (env.pkg i).version (env.pkg j).version = 0
      ∧ (env.pkg i).arch = (env.pkg j).arch

/-- `is_pkg_a_replaces` (pkg_depends.c:283): does the name of `scout`
appear among the names of the abstracts in `pkg`'s PKG_REPLACES array? -/
def is_pkg_a_replaces (env : Env) (scout : Nat) (i : Nat) : Bool :=
  match (env.pkg i).replaces with
  | none => false
  | some rs => rs.any fun r => (env.pkg scout).name = (env.absD r).name

/-- `pkg_replaces` (pkg_depends.c:456): non-empty intersection of `pkg`'s
replaces abstracts with `replacee`'s provides abstracts (pointer, i.e.
index, equality). -/
def pkg_replaces (env : Env) (i : Nat) (replacee : Nat) : Bool :=
  ((env.pkg i).replaces.getD []).any fun r =>
    ((env.pkg replacee).provides.getD []).any fun p => r = p

/-- One scout check of `pkg_hash_fetch_conflicts` (pkg_depends.c:347-364):
installed-or-wanted, constraint satisfied, not a replace, then deduplicated
insertion into the accumulator. -/
def conflict_scout_step (env : Env) (i : Nat) (poss : depend_t Nat) (acc : List Nat)
    (scout : Nat) : List Nat :=
  if ((env.pkg scout).state_status = SS_INSTALLED ∨ (env.pkg scout).state_want = SW_INSTALL)
      ∧ version_constraints_satisfied env poss (env.pkg scout)
      ∧ is_pkg_a_replaces env scout i = false then
    if is_pkg_in_pkg_vec env acc scout then acc else acc ++ [scout]
  else acc

/-- The `k` loop of `pkg_hash_fetch_conflicts` over one possibility's
`pkg_vec`. -/
def conflict_scout_loop (env : Env) (i : Nat) (poss : depend_t Nat) :
    List Nat → List Nat → List Nat
  | acc, [] => acc
  | acc, s :: rest => conflict_scout_loop env i poss (conflict_scout_step env i poss acc s) rest

/-- The `j` loop of `pkg_hash_fetch_conflicts` over one compound's
possibilities; a possibility whose abstract has no `pkg_vec` hooked up is
skipped (`test_vec` NULL). -/
def conflict_poss_loop (env : Env) (i : Nat) : List Nat → List (depend_t Nat) → List Nat
  | acc, [] => acc
  | acc, poss :: rest =>
    match (env.absD poss.pkg).pkgs with
    | none => conflict_poss_loop env i acc rest
    | some tv => conflict_poss_loop env i (conflict_scout_loop env i poss acc tv) rest

/-- The outer loop of `pkg_hash_fetch_conflicts` (pkg_depends.c:330-368),
translated with its two cursors: the loop guard tests `conflict->type`
(first cursor) while the body reads `conflicts->possibilities` and
`conflicts->possibility_count` (second cursor, incremented at the end of
the body, line 367).  Both start at the head of the array, so they move in
lockstep; the case of a shorter second list is unreachable from equal
starts. -/
def conflict_lockstep_loop (env : Env) (i : Nat) :
    List (compound_depend_t Nat) → List (compound_depend_t Nat) → List Nat → List Nat
  | [], _, acc => acc
  | _ :: _, [], acc => acc
  | g :: gs, b :: bs, acc =>
    if g.type = UNSPEC then acc
    else conflict_lockstep_loop env i gs bs (conflict_poss_loop env i acc b.possibilities)

/-- `pkg_hash_fetch_conflicts` (pkg_depends.c:302): NULL for a parentless
package, a NULL conflicts pointer, or an empty result vector. -/
def pkg_hash_fetch_conflicts (env : Env) (i : Nat) : Option (List Nat) :=
  match (env.pkg i).parent with
  | none => none
  | some _ =>
    match (env.pkg i).conflicts with
    | none => none
    | some cds =>
      let acc := conflict_lockstep_loop env i cds cds []
      if acc.length ≠ 0 then some acc else none

/-- The outer conflicts loop as the specification words it (§4.9): for each
compound, iterate that compound's own possibility list.  Written for
comparison with the two-cursor translation above. -/
def conflict_spec_loop (env : Env) (i : Nat) :
    List (compound_depend_t Nat) → List Nat → List Nat
  | [], acc => acc
  | c :: cs, acc =>
    if c.type = UNSPEC then acc
    else conflict_spec_loop env i cs (conflict_poss_loop env i acc c.possibilities)

/-- `pkg_hash_fetch_conflicts` re-expressed with the single-cursor,
per-compound loop of the specification. -/
def pkg_hash_fetch_conflicts_spec (env : Env) (i : Nat) : Option (List Nat) :=
  match (env.pkg i).parent with
  | none => none
  | some _ =>
    match (env.pkg i).conflicts with
    | none => none
    | some cds =>
      let acc := conflict_spec_loop env i cds []
      if acc.length ≠ 0 then some acc else none

/-- `constraint_to_str` (pkg_depends.c:754). -/
def constraint_to_str (c : version_constraint) : String :=
  match c with
  | NONE => ""
  | EARLIER => "< "
  | EARLIER_EQUAL => "<= "
  | EQUAL => "= "
  | LATER_EQUAL => ">= "
  | LATER => "> "

/-- The `i == idx` search at the head of `pkg_depend_str`
(pkg_depends.c:786-790): walk the depends array while `p->type` is
non-zero, returning the compound at position `idx`. -/
def find_cdep : List (compound_depend_t Nat) → Nat → Option (compound_depend_t Nat)
  | [], _ => none
  | c :: _, 0 => if c.type = UNSPEC then none else some c
  | c :: cs, n + 1 => if c.type = UNSPEC then none else find_cdep cs n

/-- Rendering of one possibility inside `pkg_depend_str`. -/
def depend_atom_str (env : Env) (d : depend_t Nat) : String :=
  (env.absD d.pkg).name ++
    match d.version with
    | none => ""
    | some v => " (" ++ constraint_to_str d.constraint ++ v ++ ")"

/-- `pkg_depend_str` (pkg_depends.c:778): possibilities joined by pipes.
The C function returns NULL when `idx` is out of range; this never happens
at its call site (`add_unresolved_dep` passes a live loop index), and the
model returns the empty string there. -/
def pkg_depend_str (env : Env) (i : Nat) (idx : Nat) : String :=
  match find_cdep ((env.pkg i).depends.getD []) idx with
  | none => ""
  | some cd => String.intercalate " | " (cd.possibilities.map (depend_atom_str env))

/-- `merge_unresolved` (pkg_depends.c:506): a NULL `newstuff` leaves
`oldstuff` alone, otherwise the arrays are concatenated (allocating when
`oldstuff` was NULL). -/
def merge_unresolved (oldstuff newstuff : Option (List String)) : Option (List String) :=
  match newstuff with
  | none => oldstuff
  | some ns => some (oldstuff.getD [] ++ ns)

/-- `add_unresolved_dep` (pkg_depends.c:534): append the pretty-printed
compound at index `ref_ndx` of `pkg`'s depends. -/
def add_unresolved_dep (env : Env) (i : Nat) (the_lost : Option (List String))
    (ref_ndx : Nat) : Option (List String) :=
  some (the_lost.getD [] ++ [pkg_depend_str env i ref_ndx])

/-- The per-abstract traversal marks `dependencies_checked` /
`pre_dependencies_checked` (pkg.h), collected into two sets of abstract
indices; mutation of the char fields becomes insertion. -/
structure Marks where
  pre : Finset Nat
  dep : Finset Nat
deriving DecidableEq

/-- Read the mark selected by `pre_check` (pkg_depends.c:78-84). -/
def Marks.get (st : Marks) (pre_check : Bool) (a : Nat) : Bool :=
  if pre_check then a ∈ st.pre else a ∈ st.dep

/-- Set the mark selected by `pre_check` (pkg_depends.c:89). -/
def Marks.set (st : Marks) (pre_check : Bool) (a : Nat) : Marks :=
  if pre_check then { st with pre := insert a st.pre } else { st with dep := insert a st.dep }

/-- Result of one `pkg_hash_fetch_unsatisfied_dependencies` call: the marks,
the (mutated) unsatisfied vector, the `*unresolved` output (NULL or a
non-empty array), and the returned count.  The outer `Option` is fuel
exhaustion of the bounded model, shown unreachable for sufficient fuel. -/
abbrev FUres := Marks × List Nat × Option (List String) × Nat

/-- The type of the recursive dependency walker, abstracted so that each
loop of the mutually recursive C code can be translated as a standalone
function applied to the walker one fuel step down. -/
abbrev FU := Nat → List Nat → Bool → Marks → Option FUres

/-- `pkg_hash_check_unresolved` (pkg_hash.c:253): probe the walker with a
fresh vector and `pre_check=1`; the result is whether `unresolved` came
back non-NULL. -/
def check_unresolved_with (fu : FU) (q : Nat) (st : Marks) : Option (Marks × Bool) :=
  match fu q [] true st with
  | none => none
  | some (st2, _deps, unres, _rc) => some (st2, unres.isSome)

/-- The inner `j` loop of the gather phase of
`pkg_hash_fetch_best_installation_candidate` (pkg_hash.c:369-389): keep a
package if its architecture priority is positive, it is not already among
the matches (pointer containment), and the unresolved probe is clean; its
parent is recorded in the matching-abstracts vector alongside. -/
def gather_vec_loop (env : Env) (fu : FU) :
    List Nat → Marks → List Nat → List (Option Nat) →
      Option (Marks × List Nat × List (Option Nat))
  | [], st, matching, matchingA => some (st, matching, matchingA)
  | m :: rest, st, matching, matchingA =>
    if pkg_get_arch_priority env m > 0 ∧ matching.contains m = false then
      match check_unresolved_with fu m st with
      | none => none
      | some (st2, bad) =>
        if bad then gather_vec_loop env fu rest st2 matching matchingA
        else gather_vec_loop env fu rest st2 (matching ++ [m]) (matchingA ++ [(env.pkg m).parent])
    else gather_vec_loop env fu rest st matching matchingA

/-- The replacement substitution at the head of the provider loop
(pkg_hash.c:330-356): the first replacer stands in for a replaced
provider, or the provider is skipped entirely when that replacer is
itself among the providers. -/
def gather_actual (env : Env) (provs : List Nat) (p : Nat) : Option Nat :=
  let repl : Option Nat :=
    match (env.absD p).replaced_by with
    | some (r :: _) => some r
    | _ => none
  match repl with
  | some r => if r ≠ p then (if provs.contains r then none else some r) else some p
  | none => some p

/-- The provider loop of the gather phase (pkg_hash.c:328-394): substitute
the first replacer for a replaced provider, then scan the provider's
versions. -/
def gather_loop (env : Env) (fu : FU) :
    List Nat → List Nat → Marks → List Nat → List (Option Nat) →
      Option (Marks × List Nat × List (Option Nat))
  | [], _, st, matching, matchingA => some (st, matching, matchingA)
  | p :: rest, provs, st, matching, matchingA =>
    match gather_actual env provs p with
    | none => gather_loop env fu rest provs st matching matchingA
    | some ap =>
      match (env.absD ap).pkgs with
      | none => gather_loop env fu rest provs st matching matchingA
      | some vec =>
        match gather_vec_loop env fu vec st matching matchingA with
        | none => none
        | some (st2, m2, a2) => gather_loop env fu rest provs st2 m2 a2

/-- Insertion step for the sort model. -/
def insert_le (le : Nat → Nat → Bool) (x : Nat) : List Nat → List Nat
  | [] => [x]
  | y :: ys => if le x y then x :: y :: ys else y :: insert_le le x ys

/-- `pkg_vec_sort` (pkg_vec.c, not under src/): a sort consistent with the
supplied comparator; the selection logic below depends only on the
resulting order. -/
def sort_le (le : Nat → Nat → Bool) : List Nat → List Nat
  | [] => []
  | x :: xs => insert_le le x (sort_le le xs)

/-- The scoring pass (pkg_hash.c:413-439): among matches passing the
predicate, score 1 plus 1 for carrying the abstract's own name plus 1 for
being named on the command line; a strictly lower score is skipped (so a
tie replaces the held best), and a hand-provided match is returned on the
spot. -/
def score_loop (env : Env) (pred : Nat → Bool) (apkgName : String) :
    List Nat → Option Nat → Nat → Option Nat
  | [], good, _ => good
  | m :: rest, good, goodScore =>
    if pred m then
      let score := 1 + (if (env.pkg m).name = apkgName then 1 else 0)
        + (if env.cliArgv.contains (env.pkg m).name then 1 else 0)
      if score < goodScore then score_loop env pred apkgName rest good goodScore
      else if (env.pkg m).provided_by_hand then some m
      else score_loop env pred apkgName rest (some m) score
    else score_loop env pred apkgName rest good goodScore

/-- The parent abstract's status as the selection pass reads it.  The C
dereferences `matching->parent` unconditionally; a parentless match
(excluded by every well-formed index) is read here as not installed. -/
def parent_status (env : Env) (m : Nat) : pkg_state_status :=
  match (env.pkg m).parent with
  | none => SS_NOT_INSTALLED
  | some a => (env.absD a).state_status

/-- The second pass (pkg_hash.c:441-456) computing, in one sweep,
`latest_matching` (every match), `latest_installed_parent` (parent abstract
INSTALLED or UNPACKED) and `held_pkg` (HOLD or PREFER flag); each is the
last match satisfying its condition. -/
def select_loop (env : Env) :
    List Nat → Option Nat → Option Nat → Option Nat →
      Option Nat × Option Nat × Option Nat
  | [], latest, instp, held => (latest, instp, held)
  | m :: rest, _, instp, held =>
    let instp2 := if parent_status env m = SS_INSTALLED ∨ parent_status env m = SS_UNPACKED
      then some m else instp
    let held2 := if (env.pkg m).state_flag &&& (SF_HOLD ||| SF_PREFER) ≠ 0 then some m else held
    select_loop env rest (some m) instp2 held2

/-- The arch-priority pass (pkg_hash.c:460-470): first match with a
strictly greater priority than everything before it. -/
def prio_loop (env : Env) : List Nat → Nat → Option Nat → Option Nat
  | [], _, best => best
  | m :: rest, prio, best =>
    if pkg_get_arch_priority env m > prio then
      prio_loop env rest (pkg_get_arch_priority env m) (some m)
    else prio_loop env rest prio best

/-- The return cascade of `pkg_hash_fetch_best_installation_candidate`
(pkg_hash.c:491-521), in source order: scored pick, held, installed
parent, priorized, then NULL when `nmatching > 1`, else latest. -/
def candidate_dispatch (good held instp prio : Option Nat) (nmatching : Nat)
    (latest : Option Nat) : Option Nat :=
  if good.isSome then good
  else if held.isSome then held
  else if instp.isSome then instp
  else if prio.isSome then prio
  else if nmatching > 1 then none
  else if latest.isSome then latest
  else none

/-- `pkg_hash_fetch_best_installation_candidate` (pkg_hash.c:278), with the
dependency walker supplied as a parameter.  `nmatching` is the length of
the matching-abstracts vector, which receives one entry per matching
package (pkg_hash.c:384).  The abstracts vector is also sorted by name in
the C code; only its length is consumed, so the sort is dropped, as are
the log-only `wrong_arch_found` diagnostic and verbosity dump. -/
def fetch_best_with (fu : FU) (env : Env) (pred : Nat → Bool) (quiet : Bool)
    (apkgId : Nat) (st : Marks) : Option (Marks × Option Nat) :=
  match env.abs[apkgId]? with
  | none => some (st, none)
  | some apkg =>
    if apkg.provided_by.length = 0 then some (st, none)
    else
      match gather_loop env fu apkg.provided_by apkg.provided_by st [] [] with
      | none => none
      | some (st1, matching, matchingA) =>
        if matching.length < 1 then some (st1, none)
        else
          let sorted := if matching.length > 1 then sort_le env.pkgLE matching else matching
          let nmatching := matchingA.length
          let good := score_loop env pred apkg.name sorted none 0
          let sel := select_loop env sorted none none none
          let prio := if good = none ∧ sel.2.2 = none ∧ sel.2.1 = none
              ∧ nmatching > 1 ∧ quiet = false
            then prio_loop env sorted 0 none else none
          some (st1, candidate_dispatch good sel.2.2 sel.2.1 prio nmatching sel.1)

/-- The first `j` loop of a non-greedy compound
(pkg_depends.c:176-197): look for an installed satisfier via the best
candidate under `pkg_installed_and_constraint_satisfied`, re-test the
predicate, and report whether one was found. -/
def find_installed_loop (fu : FU) (env : Env) :
    List (depend_t Nat) → Marks → Option (Marks × Bool)
  | [], st => some (st, false)
  | poss :: rest, st =>
    match fetch_best_with fu env
        (fun m => pkg_installed_and_constraint_satisfied env poss (env.pkg m))
        true poss.pkg st with
    | none => none
    | some (st2, res) =>
      let res2 := match res with
        | some sp =>
          if pkg_installed_and_constraint_satisfied env poss (env.pkg sp) then some sp else none
        | none => none
      if res2.isSome then some (st2, true) else find_installed_loop fu env rest st2

/-- The second `j` loop (pkg_depends.c:201-235): look for any satisfier
under `pkg_constraint_satisfied`, re-test, and skip a RECOMMEND/SUGGEST
satisfier the user wants deinstalled or purged. -/
def find_satisfier_loop (fu : FU) (env : Env) (ctype : depend_type) :
    List (depend_t Nat) → Marks → Option (Marks × Option Nat)
  | [], st => some (st, none)
  | poss :: rest, st =>
    match fetch_best_with fu env
        (fun m => pkg_constraint_satisfied env poss (env.pkg m)) true poss.pkg st with
    | none => none
    | some (st2, res) =>
      let res2 := match res with
        | some sp => if pkg_constraint_satisfied env poss (env.pkg sp) then some sp else none
        | none => none
      match res2 with
      | some sp =>
        if (ctype = RECOMMEND ∨ ctype = SUGGEST)
            ∧ ((env.pkg sp).state_want = SW_DEINSTALL ∨ (env.pkg sp).state_want = SW_PURGE) then
          find_satisfier_loop fu env ctype rest st2
        else some (st2, some sp)
      | none => find_satisfier_loop fu env ctype rest st2

/-- The `k` loop of the GREEDY branch (pkg_depends.c:125-168): probe each
scout that is not wanted, not yet visited and not already unsatisfied; on a
NULL `unresolved` probe whose returned packages are all wanted, insert the
scout.  The probe's unresolved strings are freed, never merged. -/
def greedy_scout_loop (fu : FU) (env : Env) (pre_check : Bool) :
    List Nat → Marks → List Nat → Option (Marks × List Nat)
  | [], st, unsat => some (st, unsat)
  | sid :: rest, st, unsat =>
    let checked := match (env.pkg sid).parent with
      | none => false
      | some a => Marks.get st pre_check a
    if (env.pkg sid).state_want ≠ SW_INSTALL ∧ checked = false
        ∧ is_pkg_in_pkg_vec env unsat sid = false then
      match fu sid [] pre_check st with
      | none => none
      | some (st2, tmp, newstuff, rc) =>
        match newstuff with
        | none =>
          if (tmp.take rc).all (fun p => decide ((env.pkg p).state_want = SW_INSTALL)) then
            greedy_scout_loop fu env pre_check rest st2 (unsat ++ [sid])
          else greedy_scout_loop fu env pre_check rest st2 unsat
        | some _ => greedy_scout_loop fu env pre_check rest st2 unsat
    else greedy_scout_loop fu env pre_check rest st unsat

/-- The `l` loop of the GREEDY branch (pkg_depends.c:117-169) over the
possibility's providers; a provider with no hooked-up `pkg_vec` is
skipped. -/
def greedy_provider_loop (fu : FU) (env : Env) (pre_check : Bool) :
    List Nat → Marks → List Nat → Option (Marks × List Nat)
  | [], st, unsat => some (st, unsat)
  | a :: rest, st, unsat =>
    match (env.absD a).pkgs with
    | none => greedy_provider_loop fu env pre_check rest st unsat
    | some tv =>
      match greedy_scout_loop fu env pre_check tv st unsat with
      | none => none
      | some (st2, u2) => greedy_provider_loop fu env pre_check rest st2 u2

/-- The `j` loop of the GREEDY branch (pkg_depends.c:110-170). -/
def greedy_poss_loop (fu : FU) (env : Env) (pre_check : Bool) :
    List (depend_t Nat) → Marks → List Nat → Option (Marks × List Nat)
  | [], st, unsat => some (st, unsat)
  | poss :: rest, st, unsat =>
    match greedy_provider_loop fu env pre_check (env.absD poss.pkg).provided_by st unsat with
    | none => none
    | some (st2, u2) => greedy_poss_loop fu env pre_check rest st2 u2

/-- The `foreach dependency` loop of
`pkg_hash_fetch_unsatisfied_dependencies` (pkg_depends.c:102-272), stopping
at the zero-typed sentinel.  `idx` is the running compound index `i` used
by `add_unresolved_dep`. -/
def compound_loop (fu : FU) (env : Env) (i : Nat) (pre_check : Bool) :
    List (compound_depend_t Nat) → Nat → Marks → List Nat → Option (List String) →
      Option (Marks × List Nat × Option (List String))
  | [], _, st, unsat, lost => some (st, unsat, lost)
  | cd :: rest, idx, st, unsat, lost =>
    if cd.type = UNSPEC then some (st, unsat, lost)
    else if cd.type = GREEDY_DEPEND then
      match greedy_poss_loop fu env pre_check cd.possibilities st unsat with
      | none => none
      | some (st2, u2) => compound_loop fu env i pre_check rest (idx + 1) st2 u2 lost
    else
      match find_installed_loop fu env cd.possibilities st with
      | none => none
      | some (st2, found) =>
        if found then compound_loop fu env i pre_check rest (idx + 1) st2 unsat lost
        else
          match find_satisfier_loop fu env cd.type cd.possibilities st2 with
          | none => none
          | some (st3, satisfier) =>
            match satisfier with
            | none =>
              if cd.type ≠ RECOMMEND ∧ cd.type ≠ SUGGEST then
                compound_loop fu env i pre_check rest (idx + 1) st3 unsat
                  (add_unresolved_dep env i lost idx)
              else compound_loop fu env i pre_check rest (idx + 1) st3 unsat lost
            | some sp =>
              if cd.type = SUGGEST then
                compound_loop fu env i pre_check rest (idx + 1) st3 unsat lost
              else if sp ≠ i ∧ is_pkg_in_pkg_vec env unsat sp = false then
                match fu sp unsat pre_check st3 with
                | none => none
                | some (st4, u4, newstuff, _rc) =>
                  compound_loop fu env i pre_check rest (idx + 1) st4 (u4 ++ [sp])
                    (merge_unresolved lost newstuff)
              else compound_loop fu env i pre_check rest (idx + 1) st3 unsat lost

/-- `pkg_hash_fetch_unsatisfied_dependencies` (pkg_depends.c:56), bounded
by fuel: a parentless package and an already-marked parent return 0 with a
NULL unresolved list; otherwise the parent is marked, an absent or
sentinel-headed depends array returns 0, and the compound loop runs with
the walker one fuel step down, the final count being the vector length. -/
def pkg_hash_fetch_unsatisfied_dependencies :
    Nat → Env → Nat → List Nat → Bool → Marks → Option FUres
  | 0, _, _, _, _, _ => none
  | fuel + 1, env, i, unsat, pre_check, st =>
    match (env.pkg i).parent with
    | none => some (st, unsat, none, 0)
    | some ab =>
      if Marks.get st pre_check ab then some (st, unsat, none, 0)
      else
        let st1 := Marks.set st pre_check ab
        match (env.pkg i).depends with
        | none => some (st1, unsat, none, 0)
        | some [] => some (st1, unsat, none, 0)
        | some (c :: cs) =>
          if c.type = UNSPEC then some (st1, unsat, none, 0)
          else
            match compound_loop
                (fun q u pr s => pkg_hash_fetch_unsatisfied_dependencies fuel env q u pr s)
                env i pre_check (c :: cs) 0 st1 unsat none with
            | none => none
            | some (st2, u2, lost) => some (st2, u2, lost, u2.length)

/-- `pkg_hash_fetch_best_installation_candidate` with the fueled walker
plugged in. -/
def pkg_hash_fetch_best_installation_candidate (fuel : Nat) (env : Env)
    (pred : Nat → Bool) (quiet : Bool) (apkgId : Nat) (st : Marks) :
    Option (Marks × Option Nat) :=
  fetch_best_with (fun q u pr s => pkg_hash_fetch_unsatisfied_dependencies fuel env q u pr s)
    env pred quiet apkgId st

/-- The C `isspace` character set. -/
def ws_delims : List Char := [' ', '\t', '\n', '\r', '\x0b', '\x0c']

/-- C `isspace`. -/
def isSpaceC (c : Char) : Bool := ws_delims.contains c

/-- One `strtok` / `strtok_r` call: skip leading delimiters, return the
token up to the next delimiter, and leave the saved pointer just past the
single delimiter overwritten with NUL (or at the end when none follows). -/
def strtok1 (delims : List Char) (s : List Char) : Option (List Char) × List Char :=
  let t := s.dropWhile (fun c => delims.contains c)
  match t with
  | [] => (none, [])
  | _ =>
    let tok := t.takeWhile (fun c => !(delims.contains c))
    let rest := t.drop tok.length
    (some tok, if rest.isEmpty then [] else rest.tail)

/-- A full `strtok_r` loop, bounded by the structurally sufficient fuel
`s.length + 1` (each round strictly consumes input). -/
def strtok_iter (delims : List Char) : Nat → List Char → List (List Char)
  | 0, _ => []
  | n + 1, s =>
    match strtok1 delims s with
    | (none, _) => []
    | (some tok, rest) => tok :: strtok_iter delims n rest

/-- All tokens of `s` between characters of `delims`, in order and with
empty tokens skipped — exactly the values successive `strtok_r` calls
yield. -/
def strtok_all (delims : List Char) (s : List Char) : List (List Char) :=
  strtok_iter delims (s.length + 1) s

/-- `trim_xstrdup` (opkg_utils.c, not under src/; the spec says the version
text is stored trimmed): strip leading and trailing C whitespace. -/
def trim_xstrdup (s : List Char) : List Char :=
  ((s.dropWhile isSpaceC).reverse.dropWhile isSpaceC).reverse

/-- The operator cascade of `parseDepends` (pkg_depends.c:884-907): the
two-character tokens first, then `=`, then the deprecated one-character
`<` and `>` aliased to their non-strict forms; an unrecognized head leaves
the constraint `NONE` and consumes nothing. -/
def parse_constraint (vstr : List Char) : version_constraint × List Char :=
  if vstr.take 2 = ['<', '<'] then (EARLIER, vstr.drop 2)
  else if vstr.take 2 = ['<', '='] then (EARLIER_EQUAL, vstr.drop 2)
  else if vstr.take 2 = ['>', '='] then (LATER_EQUAL, vstr.drop 2)
  else if vstr.take 2 = ['>', '>'] then (LATER, vstr.drop 2)
  else if vstr.take 1 = ['='] then (EQUAL, vstr.drop 1)
  else if vstr.take 1 = ['<'] then (EARLIER_EQUAL, vstr.drop 1)
  else if vstr.take 1 = ['>'] then (LATER_EQUAL, vstr.drop 1)
  else (NONE, vstr)

/-- The parsing-world abstract package: hash identity is the name, so the
pointer-valued vectors become name lists.  `abstract_pkg_new` leaves
`pkgs` and `replaced_by` NULL and `provided_by` allocated empty. -/
structure p_abstract_pkg where
  name : String
  pkgs_allocated : Bool
  provided_by : List String
  replaced_by : Option (List String)
  state_flag : Nat
deriving DecidableEq, Repr

/-- The package hash (`conf->pkg_hash`) of the parsing world: the abstract
packages in insertion order, names unique by construction. -/
abbrev PHash := List p_abstract_pkg

/-- `abstract_pkg_fetch_by_name`. -/
def phash_fetch (h : PHash) (n : String) : Option p_abstract_pkg :=
  h.find? fun a => a.name = n

/-- `ensure_abstract_pkg_by_name` (pkg_hash.c:695): fetch, or insert a
fresh abstract. -/
def ensure_abstract_pkg_by_name (h : PHash) (n : String) : PHash :=
  match phash_fetch h n with
  | some _ => h
  | none => h ++ [{ name := n, pkgs_allocated := false, provided_by := [],
                    replaced_by := none, state_flag := 0 }]

/-- In-place mutation of the hash entry named `n`. -/
def phash_update (h : PHash) (n : String) (f : p_abstract_pkg → p_abstract_pkg) : PHash :=
  h.map fun a => if a.name = n then f a else a

/-- The parsing-world package record, restricted to the fields the
Conflicts / Replaces machinery reads and writes. -/
structure p_pkg where
  name : String
  state_flag : Nat
  depends : Option (List (compound_depend_t String))
  conflicts : Option (List (compound_depend_t String))
  replaces : Option (List String)
  provides : Option (List String)
deriving DecidableEq, Repr

/-- The `rest && *rest == '*'` test of `parseDepends`
(pkg_depends.c:916). -/
def begins_star (r : Option (List Char)) : Bool :=
  match r with
  | some (c :: _) => c = '*'
  | _ => false

/-- One possibility of `parseDepends` (pkg_depends.c:874-918): `name` is
the first space-token, the remainder after the single overwritten
separator is re-tokenized by newline, a leading `(` opens the constraint,
and a remaining token starting `*` marks the compound greedy.  An
all-delimiter piece gives `strtok` NULL and the C would crash in
`ensure_abstract_pkg_by_name`; the model skips such a piece.  Returns the
grown hash, the atom, and the greedy marker. -/
def parseDepends_item (h : PHash) (piece : List Char) :
    Option (PHash × depend_t String × Bool) :=
  match strtok1 [' '] piece with
  | (none, _) => none
  | (some nameTok, save1) =>
    let nameStr := String.mk nameTok
    let h1 := ensure_abstract_pkg_by_name h nameStr
    match strtok1 ['\n'] save1 with
    | (some rest, _save2) =>
      if rest.head? = some '(' then
        match strtok1 [')'] (rest.drop 1) with
        | (none, after) =>
          let r2 := (strtok1 [' '] after).1
          some (h1, { constraint := NONE, version := none, pkg := nameStr },
            begins_star r2)
        | (some vstr, after) =>
          let cv := parse_constraint vstr
          let r2 := (strtok1 [' '] after).1
          some (h1,
            { constraint := cv.1, version := some (String.mk (trim_xstrdup cv.2)),
              pkg := nameStr },
            begins_star r2)
      else
        let r2 := (strtok1 [' '] rest).1
        some (h1, { constraint := NONE, version := none, pkg := nameStr },
          begins_star r2)
    | (none, _) =>
      some (h1, { constraint := NONE, version := none, pkg := nameStr }, false)

/-- The possibility loop of `parseDepends`. -/
def parseDepends_loop (ty : depend_type) :
    PHash → List (List Char) → List (depend_t String) →
      PHash × List (depend_t String) × depend_type
  | h, [], acc => (h, acc, ty)
  | h, piece :: rest, acc =>
    match parseDepends_item h piece with
    | none => parseDepends_loop ty h rest acc
    | some (h2, dep, star) =>
      if star then parseDepends_loop GREEDY_DEPEND h2 rest (acc ++ [dep])
      else parseDepends_loop ty h2 rest (acc ++ [dep])

/-- `parseDepends` (pkg_depends.c:866) on one comma-token: split on `|`,
parse each possibility, upgrade the compound to GREEDY_DEPEND when any
possibility carries the `*` marker. -/
def parseDepends (h : PHash) (item : List Char) (ty : depend_type) :
    PHash × compound_depend_t String :=
  match parseDepends_loop ty h (strtok_all ['|'] item) [] with
  | (h2, poss, ty2) => (h2, { type := ty2, possibilities := poss })

/-- The comma loop of `parse_deplist`. -/
def parse_deplist_loop (ty : depend_type) :
    PHash → List (List Char) → List (compound_depend_t String) →
      PHash × List (compound_depend_t String)
  | h, [], acc => (h, acc)
  | h, item :: rest, acc =>
    match parseDepends h item ty with
    | (h2, cd) => parse_deplist_loop ty h2 rest (acc ++ [cd])

/-- `parse_deplist` (pkg_depends.c:712): append the parsed compounds to
the field selected by the type (depends for the dependency flavours,
conflicts for CONFLICTS, nothing for anything else); when the field was
NULL and the list yields no token it stays NULL. -/
def parse_deplist (pkg : p_pkg) (h : PHash) (ty : depend_type) (list : String) :
    p_pkg × PHash :=
  let toDepends := ty = DEPEND ∨ ty = PREDEPEND ∨ ty = RECOMMEND
      ∨ ty = SUGGEST ∨ ty = GREEDY_DEPEND
  let toConflicts := ty = CONFLICTS
  if toDepends ∨ toConflicts then
    let old := if toConflicts then pkg.conflicts else pkg.depends
    match parse_deplist_loop ty h (strtok_all [','] list.toList) [] with
    | (h2, newcds) =>
      if old = none ∧ newcds = [] then (pkg, h2)
      else
        let merged := some (old.getD [] ++ newcds)
        if toConflicts then ({ pkg with conflicts := merged }, h2)
        else ({ pkg with depends := merged }, h2)
  else (pkg, h)

/-- `pkg_conflicts_abstract` (pkg_depends.c:474) in the parsing world:
walk the conflicts array up to the zero-typed sentinel and compare each
possibility's abstract pointer — name identity under the hash — with the
conflictee. -/
def pkg_conflicts_abstract (pkg : p_pkg) (conflictee : String) : Bool :=
  ((pkg.conflicts.getD []).takeWhile fun cd => decide (cd.type ≠ UNSPEC)).any
    fun cd => cd.possibilities.any fun d => d.pkg = conflictee

/-- The NEED_DETAIL propagation of the replaces loop
(pkg_depends.c:681-687). -/
def replace_flag_fn (a : p_abstract_pkg) : p_abstract_pkg :=
  if a.state_flag &&& SF_NEED_DETAIL = 0 then
    { a with state_flag := a.state_flag ||| SF_NEED_DETAIL }
  else a

/-- The lazy `replaced_by` allocation (pkg_depends.c:689-690). -/
def replace_alloc_fn (a : p_abstract_pkg) : p_abstract_pkg :=
  if a.replaced_by = none then { a with replaced_by := some [] } else a

/-- The guarded `replaced_by` insertion (pkg_depends.c:695-698). -/
def replace_insert_fn (pkgName : String) (a : p_abstract_pkg) : p_abstract_pkg :=
  if (a.replaced_by.getD []).contains pkgName then a
  else { a with replaced_by := some (a.replaced_by.getD [] ++ [pkgName]) }

/-- One token of the `parse_replacelist` loop (pkg_depends.c:675-702):
ensure the named abstract, propagate NEED_DETAIL, lazily allocate its
`replaced_by`, and record this package's abstract there when — and only
when — the package also conflicts with the named abstract. -/
def parse_replacelist_step (pkg : p_pkg) (h : PHash) (tok : List Char) : PHash :=
  let item := String.mk tok
  let h2 := ensure_abstract_pkg_by_name h item
  let h3 := if pkg.state_flag &&& SF_NEED_DETAIL ≠ 0 then
      phash_update h2 item replace_flag_fn
    else h2
  let h4 := phash_update h3 item replace_alloc_fn
  if pkg_conflicts_abstract pkg item then
    phash_update h4 item (replace_insert_fn pkg.name)
  else h4

/-- The token loop of `parse_replacelist`; each token's name is also
accumulated into the package's replaces array. -/
def parse_replacelist_loop (pkg : p_pkg) :
    PHash → List (List Char) → List String → PHash × List String
  | h, [], acc => (h, acc)
  | h, tok :: rest, acc =>
    parse_replacelist_loop pkg (parse_replacelist_step pkg h tok) rest
      (acc ++ [String.mk tok])

/-- The self-provision performed on the package's own abstract at the top
of `parse_replacelist` (pkg_depends.c:668-672). -/
def provides_self_fn (pkgName : String) (a : p_abstract_pkg) : p_abstract_pkg :=
  { a with pkgs_allocated := true, provided_by := a.provided_by ++ [pkgName] }

/-- `parse_replacelist` (pkg_depends.c:662): ensure this package's own
abstract (allocating its pkg vector and appending it to its own
provided_by, unconditionally), then run the token loop; with no token the
package record is left untouched, otherwise PKG_REPLACES is replaced by
the accumulated name array. -/
def parse_replacelist (pkg : p_pkg) (h : PHash) (list : String) : p_pkg × PHash :=
  let h0 := ensure_abstract_pkg_by_name h pkg.name
  let h1 := phash_update h0 pkg.name (provides_self_fn pkg.name)
  match parse_replacelist_loop pkg h1 (strtok_all [',', ' '] list.toList) [] with
  | (h2, []) => (pkg, h2)
  | (h2, acc) => ({ pkg with replaces := some acc }, h2)

/-- A stanza line relevant to the Replaces / Conflicts machinery, carrying
the raw value after the field name and colon.  No other branch of
`pkg_parse_line` (pkg_parse.c:192) nor of the helpers it calls reaches
`replaced_by` or PKG_CONFLICTS, so the stanza model is restricted to these
two without loss. -/
inductive stanza_line where
  | conflictsLine (value : String)
  | replacesLine (value : String)
deriving DecidableEq, Repr

/-- The corresponding dispatch of `pkg_parse_line` (pkg_parse.c:237-239 and
309-310). -/
def pkg_parse_line_cr (pkg : p_pkg) (h : PHash) : stanza_line → p_pkg × PHash
  | .conflictsLine v => parse_deplist pkg h CONFLICTS v
  | .replacesLine v => parse_replacelist pkg h v

/-- A stanza's field lines processed in order. -/
def parse_stanza : p_pkg → PHash → List stanza_line → p_pkg × PHash
  | pkg, h, [] => (pkg, h)
  | pkg, h, line :: rest =>
    match pkg_parse_line_cr pkg h line with
    | (pkg2, h2) => parse_stanza pkg2 h2 rest

/-- The name of `x`'s replaced_by vector in the hash (empty when the
abstract is absent or the vector NULL). -/
def replaced_by_of (h : PHash) (x : String) : List String :=
  match phash_fetch h x with
  | none => []
  | some a => a.replaced_by.getD []

/-- The three `Status:` state fields of a package record. -/
structure status_fields where
  state_want : pkg_state_want
  state_flag : Nat
  state_status : pkg_state_status
deriving DecidableEq, Repr

/-- One `%63s`-style conversion of `sscanf`: skip whitespace, then consume
up to `width` non-whitespace characters; fail only when nothing but
whitespace remains.  An over-long run is split across conversions and
extra input is simply left unconsumed, exactly as in C. -/
def scan_string_conv (width : Nat) (s : List Char) : Option (List Char × List Char) :=
  let t := s.dropWhile isSpaceC
  match t with
  | [] => none
  | _ =>
    let tok := (t.takeWhile fun c => !(isSpaceC c)).take width
    some (tok, t.drop tok.length)

/-- `sscanf(sstr, "Status: %63s %63s %63s", ...)` (pkg_parse.c:36): the
literal must match at the start, then three conversions; `some` is the
`== 3` outcome carrying the scanned tokens. -/
def sscanf_status (line : List Char) : Option (String × String × String) :=
  if ("Status:".toList).isPrefixOf line then
    match scan_string_conv 63 (line.drop 7) with
    | none => none
    | some (a, r1) =>
      match scan_string_conv 63 r1 with
      | none => none
      | some (b, r2) =>
        match scan_string_conv 63 r2 with
        | none => none
        | some (c, _) => some (String.mk a, String.mk b, String.mk c)
  else none

/-- Modelled from the spec: `pkg_state_want_from_str` (pkg.c, not under
src/); the closed want set of §3, unknown tokens giving SW_UNKNOWN. -/
def pkg_state_want_from_str (s : String) : pkg_state_want :=
  if s = "unknown" then SW_UNKNOWN
  else if s = "install" then SW_INSTALL
  else if s = "deinstall" then SW_DEINSTALL
  else if s = "purge" then SW_PURGE
  else SW_UNKNOWN

/-- Modelled from the spec: `pkg_state_flag_from_str` (pkg.c, not under
src/); §4.6: a comma/space-separated set of recognized flag names OR-ed
together, unknown tokens ignored. -/
def pkg_state_flag_from_str (s : String) : Nat :=
  ((strtok_all [',', ' '] s.toList).map fun t =>
    let w := String.mk t
    if w = "ok" then 0
    else if w = "reinstreq" then SF_REINSTREQ
    else if w = "hold" then SF_HOLD
    else if w = "replace" then SF_REPLACE
    else if w = "noprune" then SF_NOPRUNE
    else if w = "prefer" then SF_PREFER
    else if w = "obsolete" then SF_OBSOLETE
    else if w = "user" then SF_USER
    else 0).foldl (· ||| ·) 0

/-- Modelled from the spec: `pkg_state_status_from_str` (pkg.c, not under
src/); the closed status set of §3. -/
def pkg_state_status_from_str (s : String) : pkg_state_status :=
  if s = "not-installed" then SS_NOT_INSTALLED
  else if s = "unpacked" then SS_UNPACKED
  else if s = "half-configured" then SS_HALF_CONFIGURED
  else if s = "installed" then SS_INSTALLED
  else if s = "half-installed" then SS_HALF_INSTALLED
  else if s = "config-files" then SS_CONFIG_FILES
  else if s = "post-inst-failed" then SS_POST_INST_FAILED
  else if s = "removal-failed" then SS_REMOVAL_FAILED
  else SS_NOT_INSTALLED

/-- `parse_status` (pkg_parse.c:32): under three conversions, log an error
(the Bool) and leave every field untouched; otherwise assign want and
status and OR in the flags. -/
def parse_status (pf : status_fields) (line : String) : status_fields × Bool :=
  match sscanf_status line.toList with
  | none => (pf, true)
  | some (sw, sf, ss) =>
    ({ state_want := pkg_state_want_from_str sw,
       state_flag := pf.state_flag ||| pkg_state_flag_from_str sf,
       state_status := pkg_state_status_from_str ss }, false)

/-- The `Status` dispatch of `pkg_parse_line` (pkg_parse.c:322-323): call
`parse_status` and fall through with return value 0 — the line never ends
the stanza nor fails the stream. -/
def pkg_parse_line_status (pf : status_fields) (line : String) : status_fields × Int :=
  ((parse_status pf line).1, 0)

/-- The whitespace-separated tokens of a character string (for stating how
many tokens a Status value carries). -/
def ws_tokens (s : List Char) : List (List Char) :=
  strtok_all ws_delims s

/-- One stanza's outcome as `pkg_hash_add_from_file` (pkg_hash.c:98-144)
observes it through `parse_from_stream_nomalloc` (parse_util.c, not under
src/): the stream return value, the parsed `Package` name, the state
flags the parsed fields contributed (the caller's `state_flags` are OR-ed
in at pkg_hash.c:102 before parsing), and whether the package has a valid
interned architecture with positive priority. -/
structure stanza_outcome where
  ret : Int
  name : Option String
  parsed_flag : Nat
  valid_arch : Bool
deriving DecidableEq, Repr

/-- The stanza loop of `pkg_hash_add_from_file` without a callback:
stanzas are identified by their index; the result is the indices inserted
into the hash, the indices passed to `pkg_deinit`/`free`, and the final
return value.  A NULL name overwrites the return value with 1 (even a
stream error), an error return frees and aborts, a record without
NEED_DETAIL is freed and skipped, a record without a valid architecture is
skipped without being freed, and the rest are inserted. -/
def pkg_hash_add_from_file_loop (state_flags : Nat) :
    List stanza_outcome → Nat → List Nat × List Nat × Int
  | [], _ => ([], [], 0)
  | s :: rest, idx =>
    let flag := state_flags ||| s.parsed_flag
    let ret : Int := if s.name = none then 1 else s.ret
    if ret ≠ 0 then
      if ret = -1 then ([], [idx], -1)
      else
        match pkg_hash_add_from_file_loop state_flags rest (idx + 1) with
        | (ins, fr, r) => (ins, idx :: fr, r)
    else if flag &&& SF_NEED_DETAIL = 0 then
      match pkg_hash_add_from_file_loop state_flags rest (idx + 1) with
      | (ins, fr, r) => (ins, idx :: fr, r)
    else if s.valid_arch = false then
      pkg_hash_add_from_file_loop state_flags rest (idx + 1)
    else
      match pkg_hash_add_from_file_loop state_flags rest (idx + 1) with
      | (ins, fr, r) => (idx :: ins, fr, r)

/-- A package as the file-owner map sees it. -/
structure owned_pkg where
  state_flag : Nat
  installed_files : List String
deriving DecidableEq, Repr

/-- The mutable state touched by `file_hash_set_file_owner`: the file-owner
hash (path → package index) and the package records. -/
structure file_owner_state where
  file_hash : List (String × Nat)
  pkgs : List owned_pkg
deriving DecidableEq, Repr

/-- `hash_table_get` on the file hash. -/
def hash_table_get_fo (h : List (String × Nat)) (k : String) : Option Nat :=
  match h.find? (fun e => e.1 = k) with
  | some e => some e.2
  | none => none

/-- `hash_table_insert` on the file hash (hash_table.c, not under src/):
modelled from the spec's file-owner map (§4.5) as update-or-append. -/
def hash_table_insert_fo (h : List (String × Nat)) (k : String) (v : Nat) :
    List (String × Nat) :=
  if (h.find? (fun e => e.1 = k)).isSome then
    h.map fun e => if e.1 = k then (k, v) else e
  else h ++ [(k, v)]

/-- `strip_offline_root` (pkg_hash.c:727). -/
def strip_offline_root (offline_root : Option String) (fn : String) : String :=
  match offline_root with
  | none => fn
  | some r => if r.isPrefixOf fn then fn.drop r.length else fn

/-- Point update of the package table. -/
def update_pkg : List owned_pkg → Nat → (owned_pkg → owned_pkg) → List owned_pkg
  | [], _, _ => []
  | p :: rest, 0, f => f p :: rest
  | p :: rest, n + 1, f => p :: update_pkg rest n f

/-- `file_hash_set_file_owner` (pkg_hash.c:752): a path whose last
character is `/` returns at once; otherwise the offline root is stripped,
the owner hash is updated, and a previous owner loses the path from its
installed-files list while both packages gain SF_FILELIST_CHANGED.  (On an
empty path the C reads `file_name[-1]`, which is undefined; the model
takes the else branch.  The `pkg_get_installed_files` /
`pkg_free_installed_files` lazy-load bracket has no effect on the state
modelled here.) -/
def file_hash_set_file_owner (offline_root : Option String) (st : file_owner_state)
    (file_name : String) (owning : Nat) : file_owner_state :=
  if file_name.toList.getLast? = some '/' then st
  else
    let fn := strip_offline_root offline_root file_name
    let old := hash_table_get_fo st.file_hash fn
    let fh2 := hash_table_insert_fo st.file_hash fn owning
    match old with
    | none => { st with file_hash := fh2 }
    | some oldid =>
      let pkgs2 := update_pkg st.pkgs oldid fun p =>
        { state_flag := p.state_flag ||| SF_FILELIST_CHANGED,
          installed_files := p.installed_files.erase fn }
      let pkgs3 := update_pkg pkgs2 owning fun p =>
        { p with state_flag := p.state_flag ||| SF_FILELIST_CHANGED }
      { file_hash := fh2, pkgs := pkgs3 }

/-- Specification-side reading of `held_pkg`: the last match carrying HOLD
or PREFER (§4.7 step 6.1). -/
def held_pkg_spec (env : Env) (l : List Nat) : Option Nat :=
  (l.filter fun m => decide ((env.pkg m).state_flag &&& (SF_HOLD ||| SF_PREFER) ≠ 0)).getLast?

/-- Specification-side reading of `latest_installed_parent`: the last
match whose parent abstract is INSTALLED or UNPACKED (§4.7 step 6.2). -/
def installed_parent_spec (env : Env) (l : List Nat) : Option Nat :=
  (l.filter fun m =>
    decide (parent_status env m = SS_INSTALLED ∨ parent_status env m = SS_UNPACKED)).getLast?

/-- Specification-side reading of `latest_matching`: the last match in
sort order (§4.7 step 6.4). -/
def latest_matching_spec (l : List Nat) : Option Nat := l.getLast?

/-- The selection result as the corrected claim describes it: the first
non-empty among the scored pick, the held package, the installed-parent
package, the (quiet-gated) arch-priority winner, and — only when at most
one entry went into the matching-abstracts vector, which receives one
entry per matching package — the last match. -/
def best_candidate_selection (env : Env) (pred : Nat → Bool) (quiet : Bool)
    (apkgName : String) (sorted : List Nat) (nmatching : Nat) : Option Nat :=
  let good := score_loop env pred apkgName sorted none 0
  let held := held_pkg_spec env sorted
  let instp := installed_parent_spec env sorted
  let prio := if good = none ∧ held = none ∧ instp = none ∧ nmatching > 1 ∧ quiet = false
    then prio_loop env sorted 0 none else none
  good <|> held <|> instp <|> prio <|> (if nmatching > 1 then none else latest_matching_spec sorted)

/-- The selection result as claim C1 words it, with the ambiguity gate on
the number of *distinct* matched abstracts.  Written from the claim for
comparison with the code's behaviour. -/
def best_candidate_selection_claim (env : Env) (pred : Nat → Bool) (quiet : Bool)
    (apkgName : String) (sorted : List Nat) (matchingA : List (Option Nat)) : Option Nat :=
  let nd := matchingA.dedup.length
  let good := score_loop env pred apkgName sorted none 0
  let held := held_pkg_spec env sorted
  let instp := installed_parent_spec env sorted
  let prio := if good = none ∧ held = none ∧ instp = none ∧ nd > 1 ∧ quiet = false
    then prio_loop env sorted 0 none else none
  good <|> held <|> instp <|> prio <|> (if nd > 1 then none else latest_matching_spec sorted)

/-- Pointwise order on the mark state: the C code only ever sets marks, so
every call maps a state to a larger one. -/
def Marks.le (s t : Marks) : Prop := s.pre ⊆ t.pre ∧ s.dep ⊆ t.dep

/-- The termination measure: how many (abstract, mark-kind) pairs are
still unmarked. -/
def unmarked_count (env : Env) (st : Marks) : Nat :=
  ((Finset.range env.abs.length).filter fun a => a ∉ st.pre).card
    + ((Finset.range env.abs.length).filter fun a => a ∉ st.dep).card

/-- Well-formedness used by the termination theorem: every package's
parent pointer lands inside the abstract table. -/
def env_wf (env : Env) : Prop :=
  ∀ p ∈ env.pkgs, ∀ a, p.parent = some a → a < env.abs.length

/-- Well-formedness of the depends lists as `parse_deplist` establishes
them: only the five dependency flavours ever reach PKG_DEPENDS. -/
def dep_wf (env : Env) : Prop :=
  ∀ p ∈ env.pkgs, ∀ cds, p.depends = some cds → ∀ cd ∈ cds,
    cd.type = DEPEND ∨ cd.type = PREDEPEND ∨ cd.type = RECOMMEND
      ∨ cd.type = SUGGEST ∨ cd.type = GREEDY_DEPEND

/-- Provenance of an unresolved string: it prints the compound at some
index of some package's depends array, and that compound is a real
dependency — neither a recommendation nor a suggestion. -/
def unresolved_from_depend (env : Env) (s : String) : Prop :=
  ∃ q i cd, find_cdep ((env.pkg q).depends.getD []) i = some cd
    ∧ s = pkg_depend_str env q i
    ∧ (cd.type = DEPEND ∨ cd.type = PREDEPEND)

/-- The empty mark state of a fresh resolver invocation. -/
def marks0 : Marks := ⟨∅, ∅⟩

/-- A concrete total preorder on package indices for the sort oracle of
the test environments. -/
def nat_le_bool : Nat → Nat → Bool := fun a b => decide (a ≤ b)

/-- A concrete no-op trailing record shared by the test environments. -/
def mk_pkg (name version arch : String) (parent : Option Nat)
    (want : pkg_state_want) (flag : Nat) (status : pkg_state_status)
    (deps : Option (List (compound_depend_t Nat)))
    (confl : Option (List (compound_depend_t Nat)))
    (repl : Option (List Nat)) (prov : Option (List Nat)) : pkg_t :=
  { name := name, version := version, arch := arch, parent := parent,
    state_want := want, state_flag := flag, state_status := status,
    provided_by_hand := false, depends := deps, conflicts := confl,
    replaces := repl, provides := prov }

/-- The single abstract of the C1 counterexample environment. -/
def cexC1_g : abstract_pkg_t :=
  { name := "g", pkgs := some [0, 1], provided_by := [0], replaced_by := none,
    state_status := SS_NOT_INSTALLED }

/-- C1 counterexample environment: one abstract `g` with two installable
versions, neither installed, held, scored, nor preferred. -/
def cexC1 : Env :=
  { pkgs := [
      mk_pkg "g" "1.0" "all" (some 0) SW_UNKNOWN 0 SS_NOT_INSTALLED none none none (some [0]),
      mk_pkg "g" "2.0" "all" (some 0) SW_UNKNOWN 0 SS_NOT_INSTALLED none none none (some [0])],
    abs := [cexC1_g],
    vercmp := fun _ _ => 0,
    archPrio := fun _ => 1,
    cliArgv := [],
    pkgLE := nat_le_bool }

/-- Scenario S7 environment: `a` depends on `b` and `b` depends on `a`. -/
def cexC2 : Env :=
  { pkgs := [
      mk_pkg "a" "1" "all" (some 0) SW_UNKNOWN 0 SS_NOT_INSTALLED
        (some [{ type := DEPEND, possibilities := [{ constraint := NONE, version := none, pkg := 1 }] }])
        none none (some [0]),
      mk_pkg "b" "1" "all" (some 1) SW_UNKNOWN 0 SS_NOT_INSTALLED
        (some [{ type := DEPEND, possibilities := [{ constraint := NONE, version := none, pkg := 0 }] }])
        none none (some [1])],
    abs := [
      { name := "a", pkgs := some [0], provided_by := [0], replaced_by := none,
        state_status := SS_NOT_INSTALLED },
      { name := "b", pkgs := some [1], provided_by := [1], replaced_by := none,
        state_status := SS_NOT_INSTALLED }],
    vercmp := fun _ _ => 0,
    archPrio := fun _ => 1,
    cliArgv := [],
    pkgLE := nat_le_bool }

/-- C5 counterexample environment: candidate `p` conflicts with abstract
`a` whose installed version `s` provides the abstract `x` that `p`
replaces — so `pkg_replaces p s` holds while `s`'s own name matches no
replaces entry. -/
def cexC5 : Env :=
  { pkgs := [
      mk_pkg "p" "1" "all" (some 0) SW_UNKNOWN 0 SS_NOT_INSTALLED none
        (some [{ type := CONFLICTS, possibilities := [{ constraint := NONE, version := none, pkg := 0 }] }])
        (some [1]) (some []),
      mk_pkg "s" "1" "all" (some 0) SW_UNKNOWN 0 SS_INSTALLED none none none (some [0, 1])],
    abs := [
      { name := "a", pkgs := some [1], provided_by := [0], replaced_by := none,
        state_status := SS_INSTALLED },
      { name := "x", pkgs := none, provided_by := [1], replaced_by := none,
        state_status := SS_NOT_INSTALLED }],
    vercmp := fun _ _ => 0,
    archPrio := fun _ => 1,
    cliArgv := [],
    pkgLE := nat_le_bool }

/-- C7 witness environment: `a` has a DEPEND on the empty abstract `b`,
so the walk reports the pretty-printed compound `"b"` unresolved. -/
def cexC7 : Env :=
  { pkgs := [
      mk_pkg "a" "1" "all" (some 0) SW_UNKNOWN 0 SS_NOT_INSTALLED
        (some [{ type := DEPEND, possibilities := [{ constraint := NONE, version := none, pkg := 1 }] }])
        none none (some [0])],
    abs := [
      { name := "a", pkgs := some [0], provided_by := [0], replaced_by := none,
        state_status := SS_NOT_INSTALLED },
      { name := "b", pkgs := none, provided_by := [1], replaced_by := none,
        state_status := SS_NOT_INSTALLED }],
    vercmp := fun _ _ => 0,
    archPrio := fun _ => 1,
    cliArgv := [],
    pkgLE := nat_le_bool }

/-- A trivial environment for the C6 counterexample: only the comparison
oracle matters, and it reports the versions equal. -/
def cexC6 : Env :=
  { pkgs := [], abs := [], vercmp := fun _ _ => 0, archPrio := fun _ => 0,
    cliArgv := [], pkgLE := nat_le_bool }

/-- The strict `<<` constraint of the C6 counterexample. -/
def cexC6_dep : depend_t Nat := { constraint := EARLIER, version := some "1", pkg := 0 }

/-- Fresh parsing-world package `p` for the C4 stanza counterexample. -/
def c4_pkg0 : p_pkg :=
  { name := "p", state_flag := 0, depends := none, conflicts := none,
    replaces := none, provides := none }

/-- Parsing-world package that already conflicts with `x`, for the C4
witness. -/
def c4_pkgc : p_pkg :=
  { name := "p", state_flag := 0, depends := none,
    conflicts := some [⟨CONFLICTS, [⟨NONE, none, "x"⟩]⟩],
    replaces := none, provides := none }

/-- Initial status fields for the C8 theorems. -/
def c8_pf0 : status_fields :=
  { state_want := SW_UNKNOWN, state_flag := 0, state_status := SS_NOT_INSTALLED }

/-- One clean stanza (parsed, named, no NEED_DETAIL) for the C9 witness. -/
def c9_s0 : stanza_outcome :=
  { ret := 0, name := some "a", parsed_flag := 0, valid_arch := true }

/-- The stanza stream of the C9 witness. -/
def c9_stanzas : List stanza_outcome := [c9_s0]

/-- A small file-owner state for the C10 witness. -/
def c10_st : file_owner_state :=
  { file_hash := [("/etc/f", 0)],
    pkgs := [{ state_flag := 0, installed_files := ["/etc/f"] }] }

/-- Executable form of `env_wf` for concrete environments. -/
def env_wf_b (env : Env) : Bool :=
  env.pkgs.all fun p =>
    match p.parent with
    | none => true
    | some a => decide (a < env.abs.length)

/-- Executable form of `dep_wf` for concrete environments. -/
def dep_wf_b (env : Env) : Bool :=
  env.pkgs.all fun p =>
    match p.depends with
    | none => true
    | some cds => cds.all fun cd =>
        decide (cd.type = DEPEND ∨ cd.type = PREDEPEND ∨ cd.type = RECOMMEND
          ∨ cd.type = SUGGEST ∨ cd.type = GREEDY_DEPEND)

theorem env_wf_of_b {env : Env} (h : env_wf_b env = true) : env_wf env := by
  intro p hp a ha
  have := List.all_eq_true.mp h p hp
  rw [ha] at this
  simpa using this

theorem dep_wf_of_b {env : Env} (h : dep_wf_b env = true) : dep_wf env := by
  intro p hp cds hcds cd hcd
  have := List.all_eq_true.mp h p hp
  rw [hcds] at this
  simpa using List.all_eq_true.mp this cd hcd

theorem conflict_lockstep_spec_eq (env : Env) (i : Nat) :
    ∀ (l : List (compound_depend_t Nat)) (acc : List Nat),
      conflict_lockstep_loop env i l l acc = conflict_spec_loop env i l acc := by
  intro l
  induction l with
  | nil => intro acc; rfl
  | cons c cs ih =>
    intro acc
    simp only [conflict_lockstep_loop, conflict_spec_loop]
    split
    · rfl
    · exact ih _

/-- C3: for every package whose Conflicts field holds several compound
dependencies, `pkg_hash_fetch_conflicts` examines, for each compound, that
compound's own possibility list and possibility count: although the
source's outer loop reads the possibilities through a second cursor, that
cursor is incremented in lockstep with the loop cursor, so the function
coincides with the per-compound iteration of the specification. -/
theorem c3_per_compound (env : Env) (i : Nat) :
    pkg_hash_fetch_conflicts env i = pkg_hash_fetch_conflicts_spec env i := by
  unfold pkg_hash_fetch_conflicts pkg_hash_fetch_conflicts_spec
  cases (env.pkg i).parent with
  | none => rfl
  | some _ =>
    cases (env.pkg i).conflicts with
    | none => rfl
    | some cds => simp only [conflict_lockstep_spec_eq]

/-- C6 (amended): for the strict constraint forms the code is in fact
non-strict — an EARLIER (`<<`) constraint is satisfied exactly when the
comparison is at most zero, and a LATER (`>>`) constraint exactly when it
is at least zero, because the unconditional `comparison == 0` branch of
`version_constraints_satisfied` accepts a package whose version compares
equal. -/
theorem c6_strict_ops (env : Env) (dep : depend_t Nat) (p : pkg_t) :
    (dep.constraint = EARLIER →
      (version_constraints_satisfied env dep p = true ↔
        env.vercmp p.version (dep.version.getD "") ≤ 0)) ∧
    (dep.constraint = LATER →
      (version_constraints_satisfied env dep p = true ↔
        env.vercmp p.version (dep.version.getD "") ≥ 0)) := by
  constructor <;> intro hc <;>
    simp only [version_constraints_satisfied, hc] <;>
    split_ifs with h1 h2 h3 h4 h5 <;> simp_all <;> omega

/-- C6 counterexample: a package whose version compares equal to a strict
`<<` constraint's version nevertheless satisfies the constraint. -/
theorem c6_counterexample :
    cexC6_dep.constraint = EARLIER
      ∧ cexC6.vercmp pkg_default.version (cexC6_dep.version.getD "") = 0
      ∧ version_constraints_satisfied cexC6 cexC6_dep pkg_default = true := by
  refine ⟨rfl, rfl, ?_⟩
  decide

theorem c6_strict_ops_witness :
    cexC6_dep.constraint = EARLIER
      ∧ (version_constraints_satisfied cexC6 cexC6_dep pkg_default = true ↔
          cexC6.vercmp pkg_default.version (cexC6_dep.version.getD "") ≤ 0) :=
  ⟨rfl, (c6_strict_ops cexC6 cexC6_dep pkg_default).1 rfl⟩

/-- C10: a path whose last character is `/` makes
`file_hash_set_file_owner` return before touching the file-owner hash or
any package flag: the state is returned unchanged. -/
theorem c10_directory_noop (offline_root : Option String) (st : file_owner_state)
    (fn : String) (owning : Nat) (h : fn.toList.getLast? = some '/') :
    file_hash_set_file_owner offline_root st fn owning = st := by
  unfold file_hash_set_file_owner
  rw [if_pos h]

theorem c10_directory_noop_witness :
    ("usr/share/").toList.getLast? = some '/'
      ∧ file_hash_set_file_owner none c10_st "usr/share/" 0 = c10_st :=
  ⟨by decide, c10_directory_noop none c10_st "usr/share/" 0 (by decide)⟩

/-- C1 counterexample: with a single abstract (`g`) carrying two matching
candidates, no scored pick, no held package, no installed parent and the
quiet flag set, the code returns NULL because the matching-abstracts
vector received one entry per matching package (here 2 > 1), while the
claim's selection — gated on the number of *distinct* matched abstracts
(here 1) — would return the last match. -/
theorem c1_counterexample :
    pkg_hash_fetch_best_installation_candidate 10 cexC1 (fun _ => false) true 0 marks0
        = some ((⟨{0}, ∅⟩ : Marks), none)
      ∧ gather_loop cexC1
          (fun q u pr s => pkg_hash_fetch_unsatisfied_dependencies 10 cexC1 q u pr s)
          cexC1_g.provided_by cexC1_g.provided_by marks0 [] []
          = some ((⟨{0}, ∅⟩ : Marks), [0, 1], [some 0, some 0])
      ∧ ([some 0, some 0] : List (Option Nat)).dedup.length = 1
      ∧ best_candidate_selection_claim cexC1 (fun _ => false) true "g" [0, 1]
          [some 0, some 0] = some 1 := by
  refine ⟨by decide, by decide, by decide, by decide⟩

/-- C5 counterexample: the conflict filter excludes by
`is_pkg_a_replaces` (name membership in the replaces array), not by the
provides-intersection `pkg_replaces`: here `pkg_replaces p s` holds (s
provides the replaced abstract x), yet s is returned as a conflict since
its own name matches no replaces entry. -/
theorem c5_counterexample :
    pkg_hash_fetch_conflicts cexC5 0 = some [1]
      ∧ pkg_replaces cexC5 0 1 = true
      ∧ is_pkg_a_replaces cexC5 1 0 = false
      ∧ ((cexC5.pkg 1).state_status = SS_INSTALLED
          ∨ (cexC5.pkg 1).state_want = SW_INSTALL) := by
  refine ⟨by decide, by decide, by decide, by decide⟩

/-- C8 counterexample: a Status line with four whitespace-separated tokens
after the field name still yields three sscanf conversions, so the fields
are assigned — not dropped as the claim requires for any token count other
than three. -/
theorem c8_counterexample :
    (ws_tokens (("Status: install ok installed extra").toList.drop 7)).length = 4
      ∧ (parse_status c8_pf0 "Status: install ok installed extra").1 ≠ c8_pf0
      ∧ (parse_status c8_pf0 "Status: install ok installed extra").2 = false := by
  refine ⟨by decide, by decide, by decide⟩

/-- C4 counterexample: in a stanza whose Replaces line precedes its
Conflicts line, the final record conflicts with `x` and lists `x` among
its replaces, yet `x`'s replaced_by does not contain `p`'s abstract —
`parse_replacelist` consulted the Conflicts field before it was
populated. -/
theorem c4_counterexample :
    pkg_conflicts_abstract
        (parse_stanza c4_pkg0 [] [.replacesLine "x", .conflictsLine "x"]).1 "x" = true
      ∧ ((parse_stanza c4_pkg0 [] [.replacesLine "x", .conflictsLine "x"]).1.replaces.getD []).contains "x" = true
      ∧ replaced_by_of (parse_stanza c4_pkg0 [] [.replacesLine "x", .conflictsLine "x"]).2 "x" = [] := by
  refine ⟨by decide, by decide, by decide⟩

theorem add_from_file_loop_ins_bound (state_flags : Nat) :
    ∀ (stanzas : List stanza_outcome) (k x : Nat),
      x ∈ (pkg_hash_add_from_file_loop state_flags stanzas k).1 → k ≤ x := by
  intro stanzas
  induction stanzas with
  | nil => intro k x hx; simp [pkg_hash_add_from_file_loop] at hx
  | cons s rest ih =>
    intro k x hx
    have hstep : ∀ h2 : x ∈ (pkg_hash_add_from_file_loop state_flags rest (k + 1)).1, k ≤ x :=
      fun h2 => Nat.le_of_lt (Nat.lt_of_lt_of_le (Nat.lt_succ_self k) (ih (k + 1) x h2))
    simp only [pkg_hash_add_from_file_loop] at hx
    by_cases hn0 : s.name = none
    · rw [if_pos hn0] at hx
      norm_num at hx
      exact hstep hx
    · rw [if_neg hn0] at hx
      by_cases hr : s.ret = 0
      · rw [hr] at hx
        norm_num at hx
        by_cases hf : (state_flags ||| s.parsed_flag) &&& SF_NEED_DETAIL = 0
        · rw [if_pos hf] at hx
          exact hstep hx
        · rw [if_neg hf] at hx
          by_cases ha : s.valid_arch = false
          · rw [if_pos ha] at hx
            exact hstep hx
          · rw [if_neg ha] at hx
            rcases List.mem_cons.mp hx with h | h
            · omega
            · exact hstep h
      · rw [if_pos hr] at hx
        by_cases hm : s.ret = -1
        · rw [if_pos hm] at hx
          simp at hx
        · rw [if_neg hm] at hx
          exact hstep hx

theorem add_from_file_loop_drop (state_flags : Nat) :
    ∀ (stanzas : List stanza_outcome) (k i : Nat) (s : stanza_outcome),
      stanzas[i]? = some s → s.ret = 0 → s.name.isSome →
      (state_flags ||| s.parsed_flag) &&& SF_NEED_DETAIL = 0 →
      (∀ j t, j < i → stanzas[j]? = some t → t.name.isSome → t.ret ≠ -1) →
      (k + i) ∈ (pkg_hash_add_from_file_loop state_flags stanzas k).2.1
        ∧ (k + i) ∉ (pkg_hash_add_from_file_loop state_flags stanzas k).1 := by
  intro stanzas
  induction stanzas with
  | nil => intro k i s hget; simp at hget
  | cons s0 rest ih =>
    intro k i s hget hret hname hflag hprev
    cases i with
    | zero =>
      have he : s0 = s := by simpa using hget
      subst he
      have hn : ¬ s0.name = none := by
        intro h
        rw [h] at hname
        simp at hname
      simp only [pkg_hash_add_from_file_loop]
      rw [if_neg hn, hret]
      norm_num
      rw [if_pos hflag]
      refine ⟨by simp, ?_⟩
      intro hmem
      have := add_from_file_loop_ins_bound state_flags rest (k + 1) _ hmem
      omega
    | succ j =>
      simp only [List.getElem?_cons_succ] at hget
      have hprev0 : s0.name.isSome → s0.ret ≠ -1 := by
        intro h0
        exact hprev 0 s0 (Nat.succ_pos j) (by simp) h0
      have hprevrest : ∀ j2 t, j2 < j → rest[j2]? = some t → t.name.isSome → t.ret ≠ -1 := by
        intro j2 t hj2 hg hn
        exact hprev (j2 + 1) t (by omega) (by simpa using hg) hn
      have hrec := ih (k + 1) j s hget hret hname hflag hprevrest
      have hk : k + 1 + j = k + (j + 1) := by omega
      rw [hk] at hrec
      have hne : k ≠ k + (j + 1) := by omega
      simp only [pkg_hash_add_from_file_loop]
      by_cases hn0 : s0.name = none
      · rw [if_pos hn0]
        norm_num
        exact hrec
      · rw [if_neg hn0]
        by_cases hr : s0.ret = 0
        · rw [hr]
          norm_num
          by_cases hf : (state_flags ||| s0.parsed_flag) &&& SF_NEED_DETAIL = 0
          · rw [if_pos hf]
            exact ⟨List.mem_cons_of_mem _ hrec.1, hrec.2⟩
          · rw [if_neg hf]
            by_cases ha : s0.valid_arch = false
            · rw [if_pos ha]
              exact hrec
            · rw [if_neg ha]
              refine ⟨hrec.1, ?_⟩
              intro hmem
              rcases List.mem_cons.mp hmem with h | h
              · omega
              · exact hrec.2 h
        · rw [if_pos hr]
          have hm : ¬ s0.ret = -1 :=
            hprev0 (Option.ne_none_iff_isSome.mp hn0)
          rw [if_neg hm]
          exact ⟨List.mem_cons_of_mem _ hrec.1, hrec.2⟩

/-- C9: every successfully parsed stanza (stream return 0, a Package name
present) whose record does not carry SF_NEED_DETAIL — combining the
caller-supplied state_flags with whatever the parsed fields contributed —
is freed by `pkg_hash_add_from_file` and never inserted into the index.
(The guard on earlier stanzas only excludes an aborting stream error
before this stanza.) -/
theorem c9_unrelated_freed (state_flags : Nat) (stanzas : List stanza_outcome)
    (i : Nat) (s : stanza_outcome)
    (hget : stanzas[i]? = some s) (hret : s.ret = 0) (hname : s.name.isSome)
    (hflag : (state_flags ||| s.parsed_flag) &&& SF_NEED_DETAIL = 0)
    (hprev : ∀ j t, j < i → stanzas[j]? = some t → t.name.isSome → t.ret ≠ -1) :
    i ∈ (pkg_hash_add_from_file_loop state_flags stanzas 0).2.1
      ∧ i ∉ (pkg_hash_add_from_file_loop state_flags stanzas 0).1 := by
  have := add_from_file_loop_drop state_flags stanzas 0 i s hget hret hname hflag hprev
  simpa using this

theorem c9_unrelated_freed_witness :
    c9_stanzas[0]? = some c9_s0
      ∧ (0 ∈ (pkg_hash_add_from_file_loop 0 c9_stanzas 0).2.1
          ∧ 0 ∉ (pkg_hash_add_from_file_loop 0 c9_stanzas 0).1) :=
  ⟨by decide,
    c9_unrelated_freed 0 c9_stanzas 0 c9_s0 (by decide) (by decide) (by decide) (by decide)
      (fun j t hj _ _ => absurd hj (by omega))⟩

theorem dropWhile_head_false {α} (p : α → Bool) :
    ∀ (s : List α) (c : α) (cs : List α), s.dropWhile p = c :: cs → p c = false := by
  intro s
  induction s with
  | nil => intro c cs h; simp at h
  | cons a as ih =>
    intro c cs h
    by_cases hp : p a
    · rw [List.dropWhile_cons_of_pos hp] at h
      exact ih c cs h
    · rw [List.dropWhile_cons_of_neg hp] at h
      cases h
      simpa using hp

theorem dropWhile_length_le {α} (p : α → Bool) (s : List α) :
    (s.dropWhile p).length ≤ s.length := by
  induction s with
  | nil => simp
  | cons a as ih =>
    by_cases hp : p a
    · rw [List.dropWhile_cons_of_pos hp]
      exact Nat.le_succ_of_le ih
    · rw [List.dropWhile_cons_of_neg hp]

theorem drop_takeWhile_length {α} (q : α → Bool) (s : List α) :
    s.drop (s.takeWhile q).length = s.dropWhile q := by
  induction s with
  | nil => rfl
  | cons a as ih =>
    by_cases hq : q a
    · rw [List.takeWhile_cons_of_pos hq, List.dropWhile_cons_of_pos hq]
      simpa using ih
    · rw [List.takeWhile_cons_of_neg hq, List.dropWhile_cons_of_neg hq]
      simp

theorem takeWhile_length_pos {α} (q : α → Bool) (a : α) (l : List α) (h : q a = true) :
    1 ≤ ((a :: l).takeWhile q).length := by
  rw [List.takeWhile_cons_of_pos h]
  simp

theorem strtok1_some_len (d : List Char) (s tok rest : List Char)
    (h : strtok1 d s = (some tok, rest)) : rest.length < s.length := by
  unfold strtok1 at h
  cases htt : s.dropWhile (fun c => d.contains c) with
  | nil => rw [htt] at h; simp at h
  | cons c0 cs0 =>
    rw [htt] at h
    simp only [Prod.mk.injEq, Option.some.injEq] at h
    have hlen : (c0 :: cs0).length ≤ s.length := by
      rw [← htt]
      exact dropWhile_length_le _ s
    have hp : (fun c => !(d.contains c)) c0 = true := by
      have h0 : d.contains c0 = false := dropWhile_head_false (fun c => d.contains c) s c0 cs0 htt
      show (!(d.contains c0)) = true
      rw [h0]
      rfl
    have htk := takeWhile_length_pos (fun c => !(d.contains c)) c0 cs0 hp
    rcases h with ⟨_htok, hrest⟩
    by_cases he : ((c0 :: cs0).drop ((c0 :: cs0).takeWhile (fun c => !(d.contains c))).length).isEmpty
    · rw [if_pos he] at hrest
      subst hrest
      simp only [List.length_cons, List.length_nil] at hlen ⊢
      omega
    · rw [if_neg he] at hrest
      subst hrest
      have h1 := List.length_drop ((c0 :: cs0).takeWhile (fun c => !(d.contains c))).length (c0 :: cs0)
      have h2 := List.length_tail ((c0 :: cs0).drop ((c0 :: cs0).takeWhile (fun c => !(d.contains c))).length)
      simp only [List.length_cons] at hlen h1
      omega

theorem strtok_iter_succ (d : List Char) (n : Nat) (s : List Char) :
    strtok_iter d (n + 1) s = (match strtok1 d s with
      | (none, _) => []
      | (some tok, rest) => tok :: strtok_iter d n rest) := rfl

theorem strtok_iter_fuel (d : List Char) :
    ∀ (n m : Nat) (s : List Char), s.length < n → s.length < m →
      strtok_iter d n s = strtok_iter d m s := by
  intro n
  induction n with
  | zero => intro m s h; omega
  | succ n ih =>
    intro m s hn hm
    cases m with
    | zero => omega
    | succ m =>
      rw [strtok_iter_succ, strtok_iter_succ]
      cases h : strtok1 d s with
      | mk o rest =>
        cases o with
        | none => rfl
        | some tok =>
          have hlt := strtok1_some_len d s tok rest h
          dsimp only
          rw [ih m rest (by omega) (by omega)]

theorem strtok_all_eq (d : List Char) (s : List Char) :
    strtok_all d s = (match strtok1 d s with
      | (none, _) => []
      | (some tok, rest) => tok :: strtok_all d rest) := by
  unfold strtok_all
  rw [strtok_iter_succ]
  cases h : strtok1 d s with
  | mk o rest =>
    cases o with
    | none => rfl
    | some tok =>
      dsimp only
      rw [strtok_iter_fuel d s.length (rest.length + 1) rest
        (strtok1_some_len d s tok rest h) (by omega)]

theorem strtok_all_cons_delim (d : List Char) (c : Char) (l : List Char)
    (hc : d.contains c = true) : strtok_all d (c :: l) = strtok_all d l := by
  rw [strtok_all_eq, strtok_all_eq d l]
  have h : strtok1 d (c :: l) = strtok1 d l := by
    unfold strtok1
    rw [List.dropWhile_cons_of_pos hc]
  rw [h]

theorem scan_none_of_no_tokens (w : Nat) (s : List Char)
    (h : strtok_all ws_delims s = []) : scan_string_conv w s = none := by
  rw [strtok_all_eq] at h
  cases h1 : strtok1 ws_delims s with
  | mk o rest =>
    rw [h1] at h
    cases o with
    | some tok => simp at h
    | none =>
      unfold strtok1 at h1
      cases htt : s.dropWhile (fun c => ws_delims.contains c) with
      | cons c0 cs0 => rw [htt] at h1; simp at h1
      | nil =>
        unfold scan_string_conv
        have hbr : s.dropWhile isSpaceC = s.dropWhile (fun c => ws_delims.contains c) := rfl
        rw [hbr, htt]

theorem scan_of_tokens (w : Nat) (s : List Char) (t : List Char) (rest : List (List Char))
    (htoks : strtok_all ws_delims s = t :: rest) (hw : t.length ≤ w) :
    ∃ r, scan_string_conv w s = some (t, r) ∧ strtok_all ws_delims r = rest := by
  rw [strtok_all_eq] at htoks
  cases h1 : strtok1 ws_delims s with
  | mk o r1 =>
    rw [h1] at htoks
    cases o with
    | none => simp at htoks
    | some tok =>
      simp only [List.cons.injEq] at htoks
      obtain ⟨rfl, hrest⟩ := htoks
      unfold strtok1 at h1
      cases htt : s.dropWhile (fun c => ws_delims.contains c) with
      | nil => rw [htt] at h1; simp at h1
      | cons c0 cs0 =>
        rw [htt] at h1
        simp only [Prod.mk.injEq, Option.some.injEq] at h1
        obtain ⟨htok, hr1⟩ := h1
        have hdrop : (c0 :: cs0).drop tok.length
            = (c0 :: cs0).dropWhile (fun c => !(ws_delims.contains c)) := by
          rw [← htok]
          exact drop_takeWhile_length _ _
        refine ⟨(c0 :: cs0).drop tok.length, ?_, ?_⟩
        · unfold scan_string_conv
          have hbr : s.dropWhile isSpaceC = s.dropWhile (fun c => ws_delims.contains c) := rfl
          rw [hbr, htt]
          dsimp only
          have hbr2 : (c0 :: cs0).takeWhile (fun c => !(isSpaceC c))
              = (c0 :: cs0).takeWhile (fun c => !(ws_delims.contains c)) := rfl
          rw [hbr2, htok, List.take_of_length_le hw]
        · rw [hdrop]
          rw [htok] at hr1
          rw [hdrop] at hr1
          cases hdw : (c0 :: cs0).dropWhile (fun c => !(ws_delims.contains c)) with
          | nil =>
            rw [hdw] at hr1
            simp only [List.isEmpty_nil, if_pos] at hr1
            rw [← hr1] at hrest
            exact hrest
          | cons ch tl =>
            rw [hdw] at hr1
            simp only [List.isEmpty_cons, List.tail_cons] at hr1
            rw [if_neg (by simp)] at hr1
            have hch : ws_delims.contains ch = true := by
              have h0 := dropWhile_head_false (fun c => !(ws_delims.contains c)) (c0 :: cs0) ch tl hdw
              simpa using h0
            rw [strtok_all_cons_delim ws_delims ch tl hch]
            rw [hr1]
            exact hrest

/-- C8 (amended): `parse_status` drops the field and logs exactly when the
sscanf scan assigns fewer than three tokens.  For a Status line whose value
splits into fewer than three whitespace-separated tokens (none of them
over-long, so no token is split by the 63-character width), the scan does
fail: the state fields are returned untouched, the error is logged, and
the enclosing `pkg_parse_line` dispatch still returns 0, continuing with
the next line.  (A line with three or more tokens — or an over-long token
scanned as several — assigns the fields from the first three scans, per
the counterexample.) -/
theorem c8_malformed_status (pf : status_fields) (line : String)
    (hwidth : ∀ t ∈ ws_tokens (line.toList.drop 7), t.length ≤ 63)
    (hcount : (ws_tokens (line.toList.drop 7)).length < 3) :
    parse_status pf line = (pf, true) ∧ pkg_parse_line_status pf line = (pf, 0) := by
  have h : sscanf_status line.toList = none := by
    unfold sscanf_status
    by_cases hpre : ("Status:".toList).isPrefixOf line.toList
    · rw [if_pos hpre]
      cases h0 : ws_tokens (line.toList.drop 7) with
      | nil =>
        rw [scan_none_of_no_tokens 63 _ h0]
      | cons t1 r1toks =>
        obtain ⟨r1, hscan1, htoks1⟩ :=
          scan_of_tokens 63 _ t1 r1toks h0 (hwidth t1 (by rw [h0]; exact List.mem_cons_self _ _))
        rw [hscan1]
        dsimp only
        cases h1 : r1toks with
        | nil =>
          rw [h1] at htoks1
          rw [scan_none_of_no_tokens 63 _ htoks1]
        | cons t2 r2toks =>
          rw [h1] at htoks1
          obtain ⟨r2, hscan2, htoks2⟩ :=
            scan_of_tokens 63 _ t2 r2toks htoks1
              (hwidth t2 (by rw [h0, h1]; exact List.mem_cons_of_mem _ (List.mem_cons_self _ _)))
          rw [hscan2]
          dsimp only
          have h2 : r2toks = [] := by
            rw [h0, h1] at hcount
            simp only [List.length_cons] at hcount
            cases r2toks with
            | nil => rfl
            | cons _ _ => simp at hcount; omega
          rw [h2] at htoks2
          rw [scan_none_of_no_tokens 63 _ htoks2]
    · rw [if_neg hpre]
  have h2 : sscanf_status line.data = none := h
  refine ⟨?_, ?_⟩
  · simp [parse_status, h2]
  · simp [pkg_parse_line_status, parse_status, h2]

theorem c8_malformed_status_witness :
    (∀ t ∈ ws_tokens (("Status: install").toList.drop 7), t.length ≤ 63)
      ∧ (ws_tokens (("Status: install").toList.drop 7)).length < 3
      ∧ parse_status c8_pf0 "Status: install" = (c8_pf0, true)
      ∧ pkg_parse_line_status c8_pf0 "Status: install" = (c8_pf0, 0) := by
  have h := c8_malformed_status c8_pf0 "Status: install" (by decide) (by decide)
  exact ⟨by decide, by decide, h.1, h.2⟩

theorem find?_cons_true {α} (p : α → Bool) (a : α) (l : List α) (h : p a = true) :
    List.find? p (a :: l) = some a := by
  simp only [List.find?]
  rw [h]

theorem find?_cons_false {α} (p : α → Bool) (a : α) (l : List α) (h : p a = false) :
    List.find? p (a :: l) = List.find? p l := by
  simp only [List.find?]
  rw [h]

theorem phash_fetch_append (h : PHash) (fresh : p_abstract_pkg) (x : String) :
    phash_fetch (h ++ [fresh]) x = (match phash_fetch h x with
      | some a => some a
      | none => phash_fetch [fresh] x) := by
  unfold phash_fetch
  induction h with
  | nil => simp
  | cons a as ih =>
    by_cases hax : a.name = x
    · rw [List.cons_append, find?_cons_true _ _ _ (by simp [hax]),
        find?_cons_true _ _ _ (by simp [hax])]
    · rw [List.cons_append, find?_cons_false _ _ _ (by simp [hax]),
        find?_cons_false _ _ _ (by simp [hax])]
      exact ih

theorem phash_fetch_update (h : PHash) (n x : String) (f : p_abstract_pkg → p_abstract_pkg)
    (hf : ∀ a, (f a).name = a.name) :
    phash_fetch (phash_update h n f) x
      = (phash_fetch h x).map (fun a => if a.name = n then f a else a) := by
  unfold phash_fetch phash_update
  induction h with
  | nil => simp
  | cons a as ih =>
    by_cases hax : a.name = x
    · have hgx : (if a.name = n then f a else a).name = x := by
        split
        · rw [hf]; exact hax
        · exact hax
      rw [List.map_cons, find?_cons_true _ _ _ (by simp [hgx]),
        find?_cons_true _ _ _ (by simp [hax])]
      simp
    · have hgx : ¬ (if a.name = n then f a else a).name = x := by
        split
        · rw [hf]; exact hax
        · exact hax
      rw [List.map_cons, find?_cons_false _ _ _ (by simp [hgx]),
        find?_cons_false _ _ _ (by simp [hax])]
      exact ih

theorem replaced_by_of_ensure (h : PHash) (n x : String) :
    replaced_by_of (ensure_abstract_pkg_by_name h n) x = replaced_by_of h x := by
  unfold ensure_abstract_pkg_by_name
  cases hf : phash_fetch h n with
  | some a => rfl
  | none =>
    unfold replaced_by_of
    rw [phash_fetch_append]
    cases hx : phash_fetch h x with
    | some a => rfl
    | none =>
      dsimp only
      by_cases hnx : n = x
      · subst hnx
        unfold phash_fetch
        rw [find?_cons_true _ _ _ (by simp)]
        rfl
      · unfold phash_fetch
        rw [find?_cons_false _ _ _ (by simp [hnx])]
        simp

theorem phash_fetch_ensure_self (h : PHash) (n : String) :
    ∃ a, phash_fetch (ensure_abstract_pkg_by_name h n) n = some a ∧ a.name = n := by
  unfold ensure_abstract_pkg_by_name
  cases hf : phash_fetch h n with
  | some a =>
    refine ⟨a, hf, ?_⟩
    have := List.find?_some hf
    simpa using this
  | none =>
    rw [phash_fetch_append, hf]
    dsimp only
    unfold phash_fetch
    rw [find?_cons_true _ _ _ (by simp)]
    exact ⟨_, rfl, rfl⟩

theorem replaced_by_of_update (h : PHash) (n x : String) (f : p_abstract_pkg → p_abstract_pkg)
    (hf : ∀ a, (f a).name = a.name) :
    replaced_by_of (phash_update h n f) x =
      (match phash_fetch h x with
      | none => []
      | some a => (if a.name = n then (f a).replaced_by else a.replaced_by).getD []) := by
  unfold replaced_by_of
  rw [phash_fetch_update h n x f hf]
  cases phash_fetch h x with
  | none => rfl
  | some a =>
    dsimp only [Option.map]
    by_cases hc : a.name = n
    · rw [if_pos hc, if_pos hc]
    · rw [if_neg hc, if_neg hc]

theorem replaced_by_of_update_other (h : PHash) (n x : String)
    (f : p_abstract_pkg → p_abstract_pkg) (hf : ∀ a, (f a).name = a.name)
    (hx : ¬ x = n) :
    replaced_by_of (phash_update h n f) x = replaced_by_of h x := by
  rw [replaced_by_of_update h n x f hf]
  unfold replaced_by_of
  cases hfx : phash_fetch h x with
  | none => rfl
  | some a =>
    have ha : a.name = x := by simpa using List.find?_some hfx
    dsimp only
    rw [if_neg (by rw [ha]; exact hx)]

theorem replaced_by_of_update_preserve (h : PHash) (n x : String)
    (f : p_abstract_pkg → p_abstract_pkg) (hf : ∀ a, (f a).name = a.name)
    (hp : ∀ a, (f a).replaced_by.getD [] = a.replaced_by.getD []) :
    replaced_by_of (phash_update h n f) x = replaced_by_of h x := by
  rw [replaced_by_of_update h n x f hf]
  unfold replaced_by_of
  cases hfx : phash_fetch h x with
  | none => rfl
  | some a =>
    dsimp only
    by_cases hc : a.name = n
    · rw [if_pos hc]
      exact hp a
    · rw [if_neg hc]

theorem phash_fetch_update_some (h : PHash) (n x : String)
    (f : p_abstract_pkg → p_abstract_pkg) (hf : ∀ a, (f a).name = a.name)
    (a : p_abstract_pkg) (ha : phash_fetch h x = some a) :
    phash_fetch (phash_update h n f) x = some (if a.name = n then f a else a) := by
  rw [phash_fetch_update h n x f hf, ha]
  rfl


theorem replace_flag_fn_name (a : p_abstract_pkg) : (replace_flag_fn a).name = a.name := by
  unfold replace_flag_fn
  split <;> rfl

theorem replace_flag_fn_rb (a : p_abstract_pkg) :
    (replace_flag_fn a).replaced_by.getD [] = a.replaced_by.getD [] := by
  unfold replace_flag_fn
  split <;> rfl

theorem replace_alloc_fn_name (a : p_abstract_pkg) : (replace_alloc_fn a).name = a.name := by
  unfold replace_alloc_fn
  split <;> rfl

theorem replace_alloc_fn_rb (a : p_abstract_pkg) :
    (replace_alloc_fn a).replaced_by.getD [] = a.replaced_by.getD [] := by
  unfold replace_alloc_fn
  by_cases hn : a.replaced_by = none
  · rw [if_pos hn, hn]
    rfl
  · rw [if_neg hn]

theorem replace_insert_fn_name (pn : String) (a : p_abstract_pkg) :
    (replace_insert_fn pn a).name = a.name := by
  unfold replace_insert_fn
  split <;> rfl

theorem replace_insert_fn_mem (pn : String) (a : p_abstract_pkg) :
    pn ∈ (replace_insert_fn pn a).replaced_by.getD [] := by
  unfold replace_insert_fn
  by_cases hc : (a.replaced_by.getD []).contains pn = true
  · rw [if_pos hc]
    simpa using hc
  · rw [if_neg hc]
    simp

theorem replace_step_h4_rb (pkg : p_pkg) (h : PHash) (item : String) (y : String) :
    replaced_by_of (phash_update (if pkg.state_flag &&& SF_NEED_DETAIL ≠ 0 then
        phash_update (ensure_abstract_pkg_by_name h item) item replace_flag_fn
      else ensure_abstract_pkg_by_name h item) item replace_alloc_fn) y
      = replaced_by_of h y := by
  rw [replaced_by_of_update_preserve _ _ _ _ replace_alloc_fn_name replace_alloc_fn_rb]
  by_cases hfl : pkg.state_flag &&& SF_NEED_DETAIL ≠ 0
  · rw [if_pos hfl,
      replaced_by_of_update_preserve _ _ _ _ replace_flag_fn_name replace_flag_fn_rb,
      replaced_by_of_ensure]
  · rw [if_neg hfl, replaced_by_of_ensure]

theorem replace_step_h4_fetch (pkg : p_pkg) (h : PHash) (item : String) :
    ∃ a, phash_fetch (phash_update (if pkg.state_flag &&& SF_NEED_DETAIL ≠ 0 then
        phash_update (ensure_abstract_pkg_by_name h item) item replace_flag_fn
      else ensure_abstract_pkg_by_name h item) item replace_alloc_fn) item = some a
      ∧ a.name = item := by
  have hstage : ∃ b, phash_fetch (if pkg.state_flag &&& SF_NEED_DETAIL ≠ 0 then
      phash_update (ensure_abstract_pkg_by_name h item) item replace_flag_fn
    else ensure_abstract_pkg_by_name h item) item = some b ∧ b.name = item := by
    obtain ⟨a2, ha2, hn2⟩ := phash_fetch_ensure_self h item
    by_cases hfl : pkg.state_flag &&& SF_NEED_DETAIL ≠ 0
    · rw [if_pos hfl]
      refine ⟨_, phash_fetch_update_some _ item item replace_flag_fn
        replace_flag_fn_name a2 ha2, ?_⟩
      by_cases hc : a2.name = item
      · rw [if_pos hc, replace_flag_fn_name]
        exact hn2
      · rw [if_neg hc]
        exact hn2
    · rw [if_neg hfl]
      exact ⟨a2, ha2, hn2⟩
  obtain ⟨b, hb, hnb⟩ := hstage
  refine ⟨_, phash_fetch_update_some _ item item replace_alloc_fn
    replace_alloc_fn_name b hb, ?_⟩
  by_cases hc : b.name = item
  · rw [if_pos hc, replace_alloc_fn_name]
    exact hnb
  · rw [if_neg hc]
    exact hnb

theorem replace_step_mem (pkg : p_pkg) (h : PHash) (tok : List Char) (x : String) :
    (pkg.name ∈ replaced_by_of (parse_replacelist_step pkg h tok) x
      ↔ ((x = String.mk tok ∧ pkg_conflicts_abstract pkg x = true)
          ∨ pkg.name ∈ replaced_by_of h x)) := by
  unfold parse_replacelist_step
  dsimp only
  by_cases hconf : pkg_conflicts_abstract pkg (String.mk tok) = true
  · rw [if_pos hconf]
    by_cases hx : x = String.mk tok
    · rw [hx]
      have hmem : pkg.name ∈ replaced_by_of
          (phash_update (phash_update (if pkg.state_flag &&& SF_NEED_DETAIL ≠ 0 then
              phash_update (ensure_abstract_pkg_by_name h (String.mk tok)) (String.mk tok)
                replace_flag_fn
            else ensure_abstract_pkg_by_name h (String.mk tok)) (String.mk tok)
            replace_alloc_fn) (String.mk tok) (replace_insert_fn pkg.name)) (String.mk tok) := by
        obtain ⟨a, ha, hna⟩ := replace_step_h4_fetch pkg h (String.mk tok)
        unfold replaced_by_of
        rw [phash_fetch_update_some _ (String.mk tok) (String.mk tok)
          (replace_insert_fn pkg.name) (replace_insert_fn_name pkg.name) a ha]
        dsimp only
        rw [if_pos hna]
        exact replace_insert_fn_mem pkg.name a
      constructor
      · intro _
        exact Or.inl ⟨rfl, hconf⟩
      · intro _
        exact hmem
    · rw [replaced_by_of_update_other _ _ _ _ (replace_insert_fn_name pkg.name) hx,
        replace_step_h4_rb]
      constructor
      · exact Or.inr
      · intro hor
        cases hor with
        | inl hc => exact absurd hc.1 hx
        | inr hm => exact hm
  · rw [if_neg hconf, replace_step_h4_rb]
    constructor
    · exact Or.inr
    · intro hor
      cases hor with
      | inl hc =>
        exact absurd (hc.1 ▸ hc.2) hconf
      | inr hm => exact hm

theorem parse_replacelist_loop_mem (pkg : p_pkg) (x : String)
    (toks : List (List Char)) :
    ∀ (h : PHash) (acc : List String),
      (pkg.name ∈ replaced_by_of (parse_replacelist_loop pkg h toks acc).1 x
        ↔ ((x ∈ toks.map String.mk ∧ pkg_conflicts_abstract pkg x = true)
            ∨ pkg.name ∈ replaced_by_of h x)) := by
  induction toks with
  | nil =>
    intro h acc
    unfold parse_replacelist_loop
    simp
  | cons tok rest ih =>
    intro h acc
    unfold parse_replacelist_loop
    rw [ih (parse_replacelist_step pkg h tok) (acc ++ [String.mk tok]),
      replace_step_mem]
    simp only [List.map_cons, List.mem_cons]
    tauto

/-- **C4.** Amended: after `parse_replacelist` processes a Replaces list for
`pkg`, this package's name stands in abstract `x`'s `replaced_by` vector
exactly when either `x` is one of the Replaces tokens AND
`pkg_conflicts_abstract` holds of the Conflicts field as parsed at the
moment the Replaces line is handled, or the name was there already.  The
claim's unconditional "if and only if the package also declares a conflict"
reading is refuted by `c4_counterexample`: a Conflicts line parsed after
the Replaces line does not count. -/
theorem c4_replaced_by_iff (pkg : p_pkg) (h : PHash) (list : String) (x : String) :
    (pkg.name ∈ replaced_by_of (parse_replacelist pkg h list).2 x
      ↔ ((x ∈ (strtok_all [',', ' '] list.toList).map String.mk
            ∧ pkg_conflicts_abstract pkg x = true)
          ∨ pkg.name ∈ replaced_by_of h x)) := by
  have hrb := parse_replacelist_loop_mem pkg x (strtok_all [',', ' '] list.toList)
    (phash_update (ensure_abstract_pkg_by_name h pkg.name) pkg.name
      (provides_self_fn pkg.name)) []
  have hpre : replaced_by_of (phash_update (ensure_abstract_pkg_by_name h pkg.name)
      pkg.name (provides_self_fn pkg.name)) x = replaced_by_of h x := by
    rw [replaced_by_of_update_preserve _ _ _ (provides_self_fn pkg.name)
        (fun a => rfl) (fun a => rfl),
      replaced_by_of_ensure]
  rw [hpre] at hrb
  unfold parse_replacelist
  dsimp only
  cases hm : parse_replacelist_loop pkg
      (phash_update (ensure_abstract_pkg_by_name h pkg.name) pkg.name
        (provides_self_fn pkg.name))
      (strtok_all [',', ' '] list.toList) [] with
  | mk h2 acc =>
    rw [hm] at hrb
    cases acc with
    | nil => exact hrb
    | cons a0 arest => exact hrb

theorem Marks.le_refl (s : Marks) : Marks.le s s :=
  ⟨Finset.Subset.refl _, Finset.Subset.refl _⟩

theorem Marks.le_trans {s t u : Marks} (h1 : Marks.le s t) (h2 : Marks.le t u) :
    Marks.le s u :=
  ⟨Finset.Subset.trans h1.1 h2.1, Finset.Subset.trans h1.2 h2.2⟩

theorem Marks.le_set (s : Marks) (pc : Bool) (a : Nat) : Marks.le s (Marks.set s pc a) := by
  unfold Marks.set
  cases pc
  · exact ⟨Finset.Subset.refl _, Finset.subset_insert _ _⟩
  · exact ⟨Finset.subset_insert _ _, Finset.Subset.refl _⟩

theorem unmarked_count_anti (env : Env) {s t : Marks} (h : Marks.le s t) :
    unmarked_count env t ≤ unmarked_count env s := by
  unfold unmarked_count
  refine Nat.add_le_add ?_ ?_ <;> apply Finset.card_le_card <;> intro x hx <;>
    simp only [Finset.mem_filter] at hx ⊢
  · exact ⟨hx.1, fun hc => hx.2 (h.1 hc)⟩
  · exact ⟨hx.1, fun hc => hx.2 (h.2 hc)⟩

theorem unmarked_count_set_lt (env : Env) (st : Marks) (pc : Bool) (a : Nat)
    (ha : a < env.abs.length) (hnm : Marks.get st pc a = false) :
    unmarked_count env (Marks.set st pc a) < unmarked_count env st := by
  unfold unmarked_count Marks.set
  unfold Marks.get at hnm
  cases pc
  · rw [if_neg Bool.false_ne_true] at hnm
    have hnd : a ∉ st.dep := of_decide_eq_false hnm
    rw [if_neg Bool.false_ne_true]
    refine Nat.add_lt_add_left (Finset.card_lt_card ?_) _
    constructor
    · intro x hx
      rw [Finset.mem_filter] at hx ⊢
      exact ⟨hx.1, fun hc => hx.2 (Finset.mem_insert_of_mem hc)⟩
    · intro hsub
      have hmem : a ∈ (Finset.range env.abs.length).filter fun x => x ∉ st.dep := by
        rw [Finset.mem_filter, Finset.mem_range]
        exact ⟨ha, hnd⟩
      have h2 := hsub hmem
      rw [Finset.mem_filter] at h2
      exact h2.2 (Finset.mem_insert_self a st.dep)
  · rw [if_pos rfl] at hnm
    have hnp : a ∉ st.pre := of_decide_eq_false hnm
    rw [if_pos rfl]
    refine Nat.add_lt_add_right (Finset.card_lt_card ?_) _
    constructor
    · intro x hx
      rw [Finset.mem_filter] at hx ⊢
      exact ⟨hx.1, fun hc => hx.2 (Finset.mem_insert_of_mem hc)⟩
    · intro hsub
      have hmem : a ∈ (Finset.range env.abs.length).filter fun x => x ∉ st.pre := by
        rw [Finset.mem_filter, Finset.mem_range]
        exact ⟨ha, hnp⟩
      have h2 := hsub hmem
      rw [Finset.mem_filter] at h2
      exact h2.2 (Finset.mem_insert_self a st.pre)

/-- The walker only ever adds marks. -/
def fu_mono (fu : FU) : Prop :=
  ∀ q u pr s r, fu q u pr s = some r → Marks.le s r.1

/-- The walker succeeds from any state at least as marked as `base`. -/
def fu_tot (fu : FU) (base : Marks) : Prop :=
  ∀ q u pr s, Marks.le base s → (fu q u pr s).isSome = true

theorem check_unresolved_mono {fu : FU} (hm : fu_mono fu) (q : Nat) (st : Marks)
    (r : Marks × Bool) (h : check_unresolved_with fu q st = some r) : Marks.le st r.1 := by
  unfold check_unresolved_with at h
  cases hq : fu q [] true st with
  | none => rw [hq] at h; simp at h
  | some res =>
    rw [hq] at h
    obtain ⟨st2, deps, unres, rc⟩ := res
    dsimp only at h
    obtain rfl := Option.some.inj h
    exact hm q [] true st _ hq

theorem gather_vec_loop_mono {fu : FU} (hm : fu_mono fu) (env : Env) (l : List Nat) :
    ∀ st matching matchingA r,
      gather_vec_loop env fu l st matching matchingA = some r → Marks.le st r.1 := by
  induction l with
  | nil =>
    intro st m a r h
    unfold gather_vec_loop at h
    obtain rfl := Option.some.inj h
    exact Marks.le_refl st
  | cons x rest ih =>
    intro st m a r h
    unfold gather_vec_loop at h
    by_cases hc : pkg_get_arch_priority env x > 0 ∧ m.contains x = false
    · rw [if_pos hc] at h
      cases hq : check_unresolved_with fu x st with
      | none => rw [hq] at h; simp at h
      | some res =>
        rw [hq] at h
        obtain ⟨st2, bad⟩ := res
        dsimp only at h
        have h1 : Marks.le st st2 := check_unresolved_mono hm x st (st2, bad) hq
        by_cases hb : bad = true
        · rw [if_pos hb] at h
          exact Marks.le_trans h1 (ih st2 m a r h)
        · rw [if_neg hb] at h
          exact Marks.le_trans h1 (ih st2 _ _ r h)
    · rw [if_neg hc] at h
      exact ih st m a r h

theorem gather_loop_mono {fu : FU} (hm : fu_mono fu) (env : Env) (l : List Nat)
    (provs : List Nat) :
    ∀ st matching matchingA r,
      gather_loop env fu l provs st matching matchingA = some r → Marks.le st r.1 := by
  induction l with
  | nil =>
    intro st m a r h
    unfold gather_loop at h
    obtain rfl := Option.some.inj h
    exact Marks.le_refl st
  | cons p rest ih =>
    intro st m a r h
    unfold gather_loop at h
    cases ha : gather_actual env provs p with
    | none => rw [ha] at h; exact ih st m a r h
    | some ap =>
      rw [ha] at h
      dsimp only at h
      cases hp : (env.absD ap).pkgs with
      | none => rw [hp] at h; exact ih st m a r h
      | some vec =>
        rw [hp] at h
        dsimp only at h
        cases hv : gather_vec_loop env fu vec st m a with
        | none => rw [hv] at h; simp at h
        | some res =>
          rw [hv] at h
          obtain ⟨st2, m2, a2⟩ := res
          dsimp only at h
          exact Marks.le_trans (gather_vec_loop_mono hm env vec st m a _ hv) (ih st2 m2 a2 r h)

theorem fetch_best_mono {fu : FU} (hm : fu_mono fu) (env : Env) (pred : Nat → Bool)
    (quiet : Bool) (apkgId : Nat) (st : Marks) (r : Marks × Option Nat)
    (h : fetch_best_with fu env pred quiet apkgId st = some r) : Marks.le st r.1 := by
  unfold fetch_best_with at h
  cases habs : env.abs[apkgId]? with
  | none =>
    rw [habs] at h
    dsimp only at h
    obtain rfl := Option.some.inj h
    exact Marks.le_refl st
  | some apkg =>
    rw [habs] at h
    dsimp only at h
    by_cases hl : apkg.provided_by.length = 0
    · rw [if_pos hl] at h
      obtain rfl := Option.some.inj h
      exact Marks.le_refl st
    · rw [if_neg hl] at h
      cases hg : gather_loop env fu apkg.provided_by apkg.provided_by st [] [] with
      | none => rw [hg] at h; simp at h
      | some res =>
        rw [hg] at h
        obtain ⟨st1, matching, matchingA⟩ := res
        dsimp only at h
        have h1 : Marks.le st st1 := gather_loop_mono hm env _ _ st [] [] _ hg
        by_cases hml : matching.length < 1
        · rw [if_pos hml] at h
          obtain rfl := Option.some.inj h
          exact h1
        · rw [if_neg hml] at h
          obtain rfl := Option.some.inj h
          exact h1

theorem find_installed_loop_mono {fu : FU} (hm : fu_mono fu) (env : Env)
    (l : List (depend_t Nat)) :
    ∀ st r, find_installed_loop fu env l st = some r → Marks.le st r.1 := by
  induction l with
  | nil =>
    intro st r h
    unfold find_installed_loop at h
    obtain rfl := Option.some.inj h
    exact Marks.le_refl st
  | cons poss rest ih =>
    intro st r h
    unfold find_installed_loop at h
    cases hfb : fetch_best_with fu env
        (fun m => pkg_installed_and_constraint_satisfied env poss (env.pkg m))
        true poss.pkg st with
    | none => rw [hfb] at h; simp at h
    | some res =>
      rw [hfb] at h
      obtain ⟨st2, fbres⟩ := res
      dsimp only at h
      have h1 : Marks.le st st2 := fetch_best_mono hm env _ true poss.pkg st (st2, fbres) hfb
      cases fbres with
      | none =>
        rw [if_neg (by simp)] at h
        exact Marks.le_trans h1 (ih st2 r h)
      | some sp =>
        dsimp only at h
        by_cases hs : pkg_installed_and_constraint_satisfied env poss (env.pkg sp) = true
        · rw [if_pos hs, if_pos Option.isSome_some] at h
          obtain rfl := Option.some.inj h
          exact h1
        · rw [if_neg hs, if_neg (by simp)] at h
          exact Marks.le_trans h1 (ih st2 r h)

theorem find_satisfier_loop_mono {fu : FU} (hm : fu_mono fu) (env : Env)
    (ctype : depend_type) (l : List (depend_t Nat)) :
    ∀ st r, find_satisfier_loop fu env ctype l st = some r → Marks.le st r.1 := by
  induction l with
  | nil =>
    intro st r h
    unfold find_satisfier_loop at h
    obtain rfl := Option.some.inj h
    exact Marks.le_refl st
  | cons poss rest ih =>
    intro st r h
    unfold find_satisfier_loop at h
    cases hfb : fetch_best_with fu env
        (fun m => pkg_constraint_satisfied env poss (env.pkg m)) true poss.pkg st with
    | none => rw [hfb] at h; simp at h
    | some res =>
      rw [hfb] at h
      obtain ⟨st2, fbres⟩ := res
      dsimp only at h
      have h1 : Marks.le st st2 := fetch_best_mono hm env _ true poss.pkg st (st2, fbres) hfb
      cases fbres with
      | none =>
        dsimp only at h
        exact Marks.le_trans h1 (ih st2 r h)
      | some sp =>
        dsimp only at h
        by_cases hs : pkg_constraint_satisfied env poss (env.pkg sp) = true
        · rw [if_pos hs] at h
          dsimp only at h
          by_cases hw : (ctype = RECOMMEND ∨ ctype = SUGGEST)
              ∧ ((env.pkg sp).state_want = SW_DEINSTALL ∨ (env.pkg sp).state_want = SW_PURGE)
          · rw [if_pos hw] at h
            exact Marks.le_trans h1 (ih st2 r h)
          · rw [if_neg hw] at h
            obtain rfl := Option.some.inj h
            exact h1
        · rw [if_neg hs] at h
          dsimp only at h
          exact Marks.le_trans h1 (ih st2 r h)

theorem greedy_scout_loop_mono {fu : FU} (hm : fu_mono fu) (env : Env) (pc : Bool)
    (l : List Nat) :
    ∀ st unsat r, greedy_scout_loop fu env pc l st unsat = some r → Marks.le st r.1 := by
  induction l with
  | nil =>
    intro st u r h
    unfold greedy_scout_loop at h
    obtain rfl := Option.some.inj h
    exact Marks.le_refl st
  | cons sid rest ih =>
    intro st u r h
    unfold greedy_scout_loop at h
    dsimp only at h
    by_cases hc : (env.pkg sid).state_want ≠ SW_INSTALL
        ∧ (match (env.pkg sid).parent with
          | none => false
          | some a => Marks.get st pc a) = false
        ∧ is_pkg_in_pkg_vec env u sid = false
    · rw [if_pos hc] at h
      cases hq : fu sid [] pc st with
      | none => rw [hq] at h; simp at h
      | some res =>
        rw [hq] at h
        obtain ⟨st2, tmp, newstuff, rc⟩ := res
        dsimp only at h
        have h1 : Marks.le st st2 := hm sid [] pc st _ hq
        cases newstuff with
        | none =>
          dsimp only at h
          by_cases hall : (tmp.take rc).all (fun p => decide ((env.pkg p).state_want = SW_INSTALL)) = true
          · rw [if_pos hall] at h
            exact Marks.le_trans h1 (ih st2 _ r h)
          · rw [if_neg hall] at h
            exact Marks.le_trans h1 (ih st2 u r h)
        | some ns =>
          dsimp only at h
          exact Marks.le_trans h1 (ih st2 u r h)
    · rw [if_neg hc] at h
      exact ih st u r h

theorem greedy_provider_loop_mono {fu : FU} (hm : fu_mono fu) (env : Env) (pc : Bool)
    (l : List Nat) :
    ∀ st unsat r, greedy_provider_loop fu env pc l st unsat = some r → Marks.le st r.1 := by
  induction l with
  | nil =>
    intro st u r h
    unfold greedy_provider_loop at h
    obtain rfl := Option.some.inj h
    exact Marks.le_refl st
  | cons a rest ih =>
    intro st u r h
    unfold greedy_provider_loop at h
    cases hp : (env.absD a).pkgs with
    | none => rw [hp] at h; exact ih st u r h
    | some tv =>
      rw [hp] at h
      dsimp only at h
      cases hs : greedy_scout_loop fu env pc tv st u with
      | none => rw [hs] at h; simp at h
      | some res =>
        rw [hs] at h
        obtain ⟨st2, u2⟩ := res
        dsimp only at h
        exact Marks.le_trans (greedy_scout_loop_mono hm env pc tv st u _ hs) (ih st2 u2 r h)

theorem greedy_poss_loop_mono {fu : FU} (hm : fu_mono fu) (env : Env) (pc : Bool)
    (l : List (depend_t Nat)) :
    ∀ st unsat r, greedy_poss_loop fu env pc l st unsat = some r → Marks.le st r.1 := by
  induction l with
  | nil =>
    intro st u r h
    unfold greedy_poss_loop at h
    obtain rfl := Option.some.inj h
    exact Marks.le_refl st
  | cons poss rest ih =>
    intro st u r h
    unfold greedy_poss_loop at h
    cases hp : greedy_provider_loop fu env pc (env.absD poss.pkg).provided_by st u with
    | none => rw [hp] at h; simp at h
    | some res =>
      rw [hp] at h
      obtain ⟨st2, u2⟩ := res
      dsimp only at h
      exact Marks.le_trans (greedy_provider_loop_mono hm env pc _ st u _ hp) (ih st2 u2 r h)

theorem compound_loop_mono {fu : FU} (hm : fu_mono fu) (env : Env) (i : Nat) (pc : Bool)
    (l : List (compound_depend_t Nat)) :
    ∀ idx st unsat lost r,
      compound_loop fu env i pc l idx st unsat lost = some r → Marks.le st r.1 := by
  induction l with
  | nil =>
    intro idx st u lost r h
    unfold compound_loop at h
    obtain rfl := Option.some.inj h
    exact Marks.le_refl st
  | cons cd rest ih =>
    intro idx st u lost r h
    unfold compound_loop at h
    by_cases hu : cd.type = UNSPEC
    · rw [if_pos hu] at h
      obtain rfl := Option.some.inj h
      exact Marks.le_refl st
    · rw [if_neg hu] at h
      by_cases hg : cd.type = GREEDY_DEPEND
      · rw [if_pos hg] at h
        cases hgp : greedy_poss_loop fu env pc cd.possibilities st u with
        | none => rw [hgp] at h; simp at h
        | some res =>
          rw [hgp] at h
          obtain ⟨st2, u2⟩ := res
          dsimp only at h
          exact Marks.le_trans (greedy_poss_loop_mono hm env pc _ st u _ hgp)
            (ih (idx + 1) st2 u2 lost r h)
      · rw [if_neg hg] at h
        cases hfi : find_installed_loop fu env cd.possibilities st with
        | none => rw [hfi] at h; simp at h
        | some res =>
          rw [hfi] at h
          obtain ⟨st2, found⟩ := res
          dsimp only at h
          have h1 : Marks.le st st2 := find_installed_loop_mono hm env _ st _ hfi
          by_cases hfd : found = true
          · rw [if_pos hfd] at h
            exact Marks.le_trans h1 (ih (idx + 1) st2 u lost r h)
          · rw [if_neg hfd] at h
            cases hfs : find_satisfier_loop fu env cd.type cd.possibilities st2 with
            | none => rw [hfs] at h; simp at h
            | some res2 =>
              rw [hfs] at h
              obtain ⟨st3, satisfier⟩ := res2
              dsimp only at h
              have h2 : Marks.le st st3 :=
                Marks.le_trans h1 (find_satisfier_loop_mono hm env _ _ st2 _ hfs)
              cases satisfier with
              | none =>
                dsimp only at h
                by_cases hns : cd.type ≠ RECOMMEND ∧ cd.type ≠ SUGGEST
                · rw [if_pos hns] at h
                  exact Marks.le_trans h2 (ih (idx + 1) st3 u _ r h)
                · rw [if_neg hns] at h
                  exact Marks.le_trans h2 (ih (idx + 1) st3 u lost r h)
              | some sp =>
                dsimp only at h
                by_cases hsug : cd.type = SUGGEST
                · rw [if_pos hsug] at h
                  exact Marks.le_trans h2 (ih (idx + 1) st3 u lost r h)
                · rw [if_neg hsug] at h
                  by_cases hok : sp ≠ i ∧ is_pkg_in_pkg_vec env u sp = false
                  · rw [if_pos hok] at h
                    cases hq : fu sp u pc st3 with
                    | none => rw [hq] at h; simp at h
                    | some res3 =>
                      rw [hq] at h
                      obtain ⟨st4, u4, newstuff, rc⟩ := res3
                      dsimp only at h
                      have h3 : Marks.le st st4 :=
                        Marks.le_trans h2 (hm sp u pc st3 _ hq)
                      exact Marks.le_trans h3 (ih (idx + 1) st4 _ _ r h)
                  · rw [if_neg hok] at h
                    exact Marks.le_trans h2 (ih (idx + 1) st3 u lost r h)

theorem pkg_hash_fetch_unsatisfied_dependencies_mono (env : Env) (fuel : Nat) :
    fu_mono (fun q u pr s => pkg_hash_fetch_unsatisfied_dependencies fuel env q u pr s) := by
  induction fuel with
  | zero =>
    intro q u pr s r h
    simp [pkg_hash_fetch_unsatisfied_dependencies] at h
  | succ fuel ih =>
    intro q u pr s r h
    unfold pkg_hash_fetch_unsatisfied_dependencies at h
    cases hp : (env.pkg q).parent with
    | none =>
      rw [hp] at h
      obtain rfl := Option.some.inj h
      exact Marks.le_refl s
    | some ab =>
      rw [hp] at h
      dsimp only at h
      by_cases hmk : Marks.get s pr ab = true
      · rw [if_pos hmk] at h
        obtain rfl := Option.some.inj h
        exact Marks.le_refl s
      · rw [if_neg hmk] at h
        have hset : Marks.le s (Marks.set s pr ab) := Marks.le_set s pr ab
        cases hd : (env.pkg q).depends with
        | none =>
          rw [hd] at h
          obtain rfl := Option.some.inj h
          exact hset
        | some cds =>
          rw [hd] at h
          cases cds with
          | nil =>
            dsimp only at h
            obtain rfl := Option.some.inj h
            exact hset
          | cons c cs =>
            dsimp only at h
            by_cases hcu : c.type = UNSPEC
            · rw [if_pos hcu] at h
              obtain rfl := Option.some.inj h
              exact hset
            · rw [if_neg hcu] at h
              cases hcl : compound_loop
                  (fun q u pr s => pkg_hash_fetch_unsatisfied_dependencies fuel env q u pr s)
                  env q pr (c :: cs) 0 (Marks.set s pr ab) u none with
              | none => rw [hcl] at h; simp at h
              | some res =>
                rw [hcl] at h
                obtain ⟨st2, u2, lost⟩ := res
                dsimp only at h
                obtain rfl := Option.some.inj h
                exact Marks.le_trans hset (compound_loop_mono ih env q pr (c :: cs) 0 _ u none _ hcl)

theorem check_unresolved_tot {fu : FU} {base : Marks} (ht : fu_tot fu base) (q : Nat)
    (st : Marks) (hb : Marks.le base st) : (check_unresolved_with fu q st).isSome = true := by
  unfold check_unresolved_with
  obtain ⟨r, hr⟩ := Option.isSome_iff_exists.mp (ht q [] true st hb)
  rw [hr]
  obtain ⟨st2, d, u, rc⟩ := r
  rfl

theorem gather_vec_loop_tot {fu : FU} {base : Marks} (hm : fu_mono fu) (ht : fu_tot fu base)
    (env : Env) (l : List Nat) :
    ∀ st matching matchingA, Marks.le base st →
      (gather_vec_loop env fu l st matching matchingA).isSome = true := by
  induction l with
  | nil => intro st m a hb; rfl
  | cons x rest ih =>
    intro st m a hb
    unfold gather_vec_loop
    by_cases hc : pkg_get_arch_priority env x > 0 ∧ m.contains x = false
    · rw [if_pos hc]
      obtain ⟨res, hres⟩ := Option.isSome_iff_exists.mp (check_unresolved_tot ht x st hb)
      rw [hres]
      obtain ⟨st2, bad⟩ := res
      have h1 : Marks.le base st2 :=
        Marks.le_trans hb (check_unresolved_mono hm x st (st2, bad) hres)
      dsimp only
      by_cases hbad : bad = true
      · rw [if_pos hbad]
        exact ih st2 m a h1
      · rw [if_neg hbad]
        exact ih st2 _ _ h1
    · rw [if_neg hc]
      exact ih st m a hb

theorem gather_loop_tot {fu : FU} {base : Marks} (hm : fu_mono fu) (ht : fu_tot fu base)
    (env : Env) (l : List Nat) (provs : List Nat) :
    ∀ st matching matchingA, Marks.le base st →
      (gather_loop env fu l provs st matching matchingA).isSome = true := by
  induction l with
  | nil => intro st m a hb; rfl
  | cons p rest ih =>
    intro st m a hb
    unfold gather_loop
    cases ha : gather_actual env provs p with
    | none => exact ih st m a hb
    | some ap =>
      dsimp only
      cases hp : (env.absD ap).pkgs with
      | none => exact ih st m a hb
      | some vec =>
        dsimp only
        obtain ⟨res, hres⟩ := Option.isSome_iff_exists.mp
          (gather_vec_loop_tot hm ht env vec st m a hb)
        rw [hres]
        obtain ⟨st2, m2, a2⟩ := res
        exact ih st2 m2 a2 (Marks.le_trans hb (gather_vec_loop_mono hm env vec st m a _ hres))

theorem fetch_best_tot {fu : FU} {base : Marks} (hm : fu_mono fu) (ht : fu_tot fu base)
    (env : Env) (pred : Nat → Bool) (quiet : Bool) (apkgId : Nat) (st : Marks)
    (hb : Marks.le base st) :
    (fetch_best_with fu env pred quiet apkgId st).isSome = true := by
  unfold fetch_best_with
  cases habs : env.abs[apkgId]? with
  | none => rfl
  | some apkg =>
    dsimp only
    by_cases hl : apkg.provided_by.length = 0
    · rw [if_pos hl]
      rfl
    · rw [if_neg hl]
      obtain ⟨res, hres⟩ := Option.isSome_iff_exists.mp
        (gather_loop_tot hm ht env apkg.provided_by apkg.provided_by st [] [] hb)
      rw [hres]
      obtain ⟨st1, matching, matchingA⟩ := res
      dsimp only
      by_cases hml : matching.length < 1
      · rw [if_pos hml]
        rfl
      · rw [if_neg hml]
        rfl

theorem find_installed_loop_tot {fu : FU} {base : Marks} (hm : fu_mono fu) (ht : fu_tot fu base)
    (env : Env) (l : List (depend_t Nat)) :
    ∀ st, Marks.le base st → (find_installed_loop fu env l st).isSome = true := by
  induction l with
  | nil => intro st hb; rfl
  | cons poss rest ih =>
    intro st hb
    unfold find_installed_loop
    obtain ⟨res, hres⟩ := Option.isSome_iff_exists.mp
      (fetch_best_tot hm ht env _ true poss.pkg st hb)
    rw [hres]
    obtain ⟨st2, fbres⟩ := res
    have h1 : Marks.le base st2 :=
      Marks.le_trans hb (fetch_best_mono hm env _ true poss.pkg st (st2, fbres) hres)
    dsimp only
    cases fbres with
    | none =>
      rw [if_neg (by simp)]
      exact ih st2 h1
    | some sp =>
      dsimp only
      by_cases hs : pkg_installed_and_constraint_satisfied env poss (env.pkg sp) = true
      · rw [if_pos hs, if_pos Option.isSome_some]
        rfl
      · rw [if_neg hs, if_neg (by simp)]
        exact ih st2 h1

theorem find_satisfier_loop_tot {fu : FU} {base : Marks} (hm : fu_mono fu) (ht : fu_tot fu base)
    (env : Env) (ctype : depend_type) (l : List (depend_t Nat)) :
    ∀ st, Marks.le base st → (find_satisfier_loop fu env ctype l st).isSome = true := by
  induction l with
  | nil => intro st hb; rfl
  | cons poss rest ih =>
    intro st hb
    unfold find_satisfier_loop
    obtain ⟨res, hres⟩ := Option.isSome_iff_exists.mp
      (fetch_best_tot hm ht env _ true poss.pkg st hb)
    rw [hres]
    obtain ⟨st2, fbres⟩ := res
    have h1 : Marks.le base st2 :=
      Marks.le_trans hb (fetch_best_mono hm env _ true poss.pkg st (st2, fbres) hres)
    dsimp only
    cases fbres with
    | none => exact ih st2 h1
    | some sp =>
      dsimp only
      by_cases hs : pkg_constraint_satisfied env poss (env.pkg sp) = true
      · rw [if_pos hs]
        dsimp only
        by_cases hw : (ctype = RECOMMEND ∨ ctype = SUGGEST)
            ∧ ((env.pkg sp).state_want = SW_DEINSTALL ∨ (env.pkg sp).state_want = SW_PURGE)
        · rw [if_pos hw]
          exact ih st2 h1
        · rw [if_neg hw]
          rfl
      · rw [if_neg hs]
        dsimp only
        exact ih st2 h1

theorem greedy_scout_loop_tot {fu : FU} {base : Marks} (hm : fu_mono fu) (ht : fu_tot fu base)
    (env : Env) (pc : Bool) (l : List Nat) :
    ∀ st unsat, Marks.le base st → (greedy_scout_loop fu env pc l st unsat).isSome = true := by
  induction l with
  | nil => intro st u hb; rfl
  | cons sid rest ih =>
    intro st u hb
    unfold greedy_scout_loop
    dsimp only
    by_cases hc : (env.pkg sid).state_want ≠ SW_INSTALL
        ∧ (match (env.pkg sid).parent with
          | none => false
          | some a => Marks.get st pc a) = false
        ∧ is_pkg_in_pkg_vec env u sid = false
    · rw [if_pos hc]
      obtain ⟨res, hres⟩ := Option.isSome_iff_exists.mp (ht sid [] pc st hb)
      rw [hres]
      obtain ⟨st2, tmp, newstuff, rc⟩ := res
      have h1 : Marks.le base st2 := Marks.le_trans hb (hm sid [] pc st _ hres)
      dsimp only
      cases newstuff with
      | none =>
        by_cases hall : (tmp.take rc).all
            (fun p => decide ((env.pkg p).state_want = SW_INSTALL)) = true
        · rw [if_pos hall]
          exact ih st2 _ h1
        · rw [if_neg hall]
          exact ih st2 u h1
      | some ns => exact ih st2 u h1
    · rw [if_neg hc]
      exact ih st u hb

theorem greedy_provider_loop_tot {fu : FU} {base : Marks} (hm : fu_mono fu) (ht : fu_tot fu base)
    (env : Env) (pc : Bool) (l : List Nat) :
    ∀ st unsat, Marks.le base st → (greedy_provider_loop fu env pc l st unsat).isSome = true := by
  induction l with
  | nil => intro st u hb; rfl
  | cons a rest ih =>
    intro st u hb
    unfold greedy_provider_loop
    cases hp : (env.absD a).pkgs with
    | none => exact ih st u hb
    | some tv =>
      dsimp only
      obtain ⟨res, hres⟩ := Option.isSome_iff_exists.mp
        (greedy_scout_loop_tot hm ht env pc tv st u hb)
      rw [hres]
      obtain ⟨st2, u2⟩ := res
      exact ih st2 u2 (Marks.le_trans hb (greedy_scout_loop_mono hm env pc tv st u _ hres))

theorem greedy_poss_loop_tot {fu : FU} {base : Marks} (hm : fu_mono fu) (ht : fu_tot fu base)
    (env : Env) (pc : Bool) (l : List (depend_t Nat)) :
    ∀ st unsat, Marks.le base st → (greedy_poss_loop fu env pc l st unsat).isSome = true := by
  induction l with
  | nil => intro st u hb; rfl
  | cons poss rest ih =>
    intro st u hb
    unfold greedy_poss_loop
    obtain ⟨res, hres⟩ := Option.isSome_iff_exists.mp
      (greedy_provider_loop_tot hm ht env pc (env.absD poss.pkg).provided_by st u hb)
    rw [hres]
    obtain ⟨st2, u2⟩ := res
    exact ih st2 u2 (Marks.le_trans hb (greedy_provider_loop_mono hm env pc _ st u _ hres))

theorem compound_loop_tot {fu : FU} {base : Marks} (hm : fu_mono fu) (ht : fu_tot fu base)
    (env : Env) (i : Nat) (pc : Bool) (l : List (compound_depend_t Nat)) :
    ∀ idx st unsat lost, Marks.le base st →
      (compound_loop fu env i pc l idx st unsat lost).isSome = true := by
  induction l with
  | nil => intro idx st u lost hb; rfl
  | cons cd rest ih =>
    intro idx st u lost hb
    unfold compound_loop
    by_cases hu : cd.type = UNSPEC
    · rw [if_pos hu]
      rfl
    · rw [if_neg hu]
      by_cases hg : cd.type = GREEDY_DEPEND
      · rw [if_pos hg]
        obtain ⟨res, hres⟩ := Option.isSome_iff_exists.mp
          (greedy_poss_loop_tot hm ht env pc cd.possibilities st u hb)
        rw [hres]
        obtain ⟨st2, u2⟩ := res
        exact ih (idx + 1) st2 u2 lost
          (Marks.le_trans hb (greedy_poss_loop_mono hm env pc _ st u _ hres))
      · rw [if_neg hg]
        obtain ⟨res, hres⟩ := Option.isSome_iff_exists.mp
          (find_installed_loop_tot hm ht env cd.possibilities st hb)
        rw [hres]
        obtain ⟨st2, found⟩ := res
        have h1 : Marks.le base st2 :=
          Marks.le_trans hb (find_installed_loop_mono hm env _ st _ hres)
        dsimp only
        by_cases hfd : found = true
        · rw [if_pos hfd]
          exact ih (idx + 1) st2 u lost h1
        · rw [if_neg hfd]
          obtain ⟨res2, hres2⟩ := Option.isSome_iff_exists.mp
            (find_satisfier_loop_tot hm ht env cd.type cd.possibilities st2 h1)
          rw [hres2]
          obtain ⟨st3, satisfier⟩ := res2
          have h2 : Marks.le base st3 :=
            Marks.le_trans h1 (find_satisfier_loop_mono hm env _ _ st2 _ hres2)
          dsimp only
          cases satisfier with
          | none =>
            dsimp only
            by_cases hns : cd.type ≠ RECOMMEND ∧ cd.type ≠ SUGGEST
            · rw [if_pos hns]
              exact ih (idx + 1) st3 u _ h2
            · rw [if_neg hns]
              exact ih (idx + 1) st3 u lost h2
          | some sp =>
            dsimp only
            by_cases hsug : cd.type = SUGGEST
            · rw [if_pos hsug]
              exact ih (idx + 1) st3 u lost h2
            · rw [if_neg hsug]
              by_cases hok : sp ≠ i ∧ is_pkg_in_pkg_vec env u sp = false
              · rw [if_pos hok]
                obtain ⟨res3, hres3⟩ := Option.isSome_iff_exists.mp (ht sp u pc st3 h2)
                rw [hres3]
                obtain ⟨st4, u4, newstuff, rc⟩ := res3
                exact ih (idx + 1) st4 _ _ (Marks.le_trans h2 (hm sp u pc st3 _ hres3))
              · rw [if_neg hok]
                exact ih (idx + 1) st3 u lost h2

theorem env_parent_lt (env : Env) (hwf : env_wf env) (q ab : Nat)
    (hp : (env.pkg q).parent = some ab) : ab < env.abs.length := by
  by_cases hq : q < env.pkgs.length
  · have hmem : env.pkg q ∈ env.pkgs := by
      unfold Env.pkg
      rw [List.getD_eq_getElem _ _ hq]
      exact List.getElem_mem hq
    exact hwf (env.pkg q) hmem ab hp
  · exfalso
    have hdef : env.pkg q = pkg_default := by
      unfold Env.pkg
      exact List.getD_eq_default _ _ (Nat.le_of_not_lt hq)
    rw [hdef] at hp
    simp [pkg_default] at hp

theorem pkg_hash_fetch_unsatisfied_dependencies_tot (env : Env) (hwf : env_wf env) :
    ∀ fuel i unsat pre_check st, unmarked_count env st < fuel →
      (pkg_hash_fetch_unsatisfied_dependencies fuel env i unsat pre_check st).isSome = true := by
  intro fuel
  induction fuel with
  | zero => intro i u pr st h; exact absurd h (Nat.not_lt_zero _)
  | succ fuel ih =>
    intro q u pr st hcnt
    unfold pkg_hash_fetch_unsatisfied_dependencies
    cases hp : (env.pkg q).parent with
    | none => rfl
    | some ab =>
      dsimp only
      by_cases hmk : Marks.get st pr ab = true
      · rw [if_pos hmk]
        rfl
      · rw [if_neg hmk]
        have hab : ab < env.abs.length := env_parent_lt env hwf q ab hp
        have hlt : unmarked_count env (Marks.set st pr ab) < fuel := by
          have h1 := unmarked_count_set_lt env st pr ab hab (by simpa using hmk)
          omega
        have hmono := pkg_hash_fetch_unsatisfied_dependencies_mono env fuel
        have htot : fu_tot
            (fun q2 u2 pr2 s2 => pkg_hash_fetch_unsatisfied_dependencies fuel env q2 u2 pr2 s2)
            (Marks.set st pr ab) := by
          intro q2 u2 pr2 s2 hle
          exact ih q2 u2 pr2 s2 (Nat.lt_of_le_of_lt (unmarked_count_anti env hle) hlt)
        cases hd : (env.pkg q).depends with
        | none => rfl
        | some cds =>
          cases cds with
          | nil => rfl
          | cons c cs =>
            dsimp only
            by_cases hcu : c.type = UNSPEC
            · rw [if_pos hcu]
              rfl
            · rw [if_neg hcu]
              obtain ⟨res, hres⟩ := Option.isSome_iff_exists.mp
                (compound_loop_tot hmono htot env q pr (c :: cs) 0 (Marks.set st pr ab) u none
                  (Marks.le_refl _))
              rw [hres]
              obtain ⟨st2, u2, lost⟩ := res
              rfl

/-- **C2.** The dependency walk terminates on every input, cycles included:
with any fuel exceeding the number of still-unmarked (abstract, mark-kind)
pairs — a bound that only the mark discipline provides — the bounded model
never runs out of fuel, and whenever the parent abstract's mark for the
requested kind is already set the function returns immediately with count 0
and no unresolved output, expanding nothing. -/
theorem c2_termination (env : Env) (fuel : Nat) (i : Nat) (unsat : List Nat)
    (pre_check : Bool) (st : Marks) (hwf : env_wf env)
    (hfuel : unmarked_count env st < fuel) :
    (pkg_hash_fetch_unsatisfied_dependencies fuel env i unsat pre_check st).isSome = true
      ∧ (∀ ab, (env.pkg i).parent = some ab → Marks.get st pre_check ab = true →
        pkg_hash_fetch_unsatisfied_dependencies fuel env i unsat pre_check st
          = some (st, unsat, none, 0)) := by
  constructor
  · exact pkg_hash_fetch_unsatisfied_dependencies_tot env hwf fuel i unsat pre_check st hfuel
  · intro ab hp hmk
    cases fuel with
    | zero => exact absurd hfuel (Nat.not_lt_zero _)
    | succ fuel =>
      unfold pkg_hash_fetch_unsatisfied_dependencies
      rw [hp]
      dsimp only
      rw [if_pos hmk]

/-- The C2 theorem applied to scenario S7 (`a` and `b` depend on each
other): the cyclic walk finishes within fuel 5. -/
theorem c2_termination_witness :
    env_wf cexC2 ∧ unmarked_count cexC2 marks0 < 5
      ∧ (pkg_hash_fetch_unsatisfied_dependencies 5 cexC2 0 [] false marks0).isSome = true :=
  ⟨env_wf_of_b (by decide), by decide,
    (c2_termination cexC2 5 0 [] false marks0 (env_wf_of_b (by decide)) (by decide)).1⟩

theorem find_cdep_mem : ∀ (l : List (compound_depend_t Nat)) (j : Nat)
    (c : compound_depend_t Nat), find_cdep l j = some c → c ∈ l := by
  intro l
  induction l with
  | nil => intro j c h; cases j <;> simp [find_cdep] at h
  | cons a rest ih =>
    intro j c h
    cases j with
    | zero =>
      unfold find_cdep at h
      by_cases hu : a.type = UNSPEC
      · rw [if_pos hu] at h; simp at h
      · rw [if_neg hu] at h
        obtain rfl := Option.some.inj h
        exact List.mem_cons_self a rest
    | succ j =>
      unfold find_cdep at h
      by_cases hu : a.type = UNSPEC
      · rw [if_pos hu] at h; simp at h
      · rw [if_neg hu] at h
        exact List.mem_cons_of_mem a (ih j c h)

theorem env_pkg_mem (env : Env) (q : Nat) (hq : q < env.pkgs.length) :
    env.pkg q ∈ env.pkgs := by
  unfold Env.pkg
  rw [List.getD_eq_getElem _ _ hq]
  exact List.getElem_mem hq

theorem env_depends_nonconflict (env : Env) (hdep : dep_wf env) (q : Nat)
    (cds : List (compound_depend_t Nat)) (hd : (env.pkg q).depends = some cds) :
    ∀ cd ∈ cds, ¬ cd.type = CONFLICTS := by
  intro cd hcd
  by_cases hq : q < env.pkgs.length
  · have := hdep (env.pkg q) (env_pkg_mem env q hq) cds hd cd hcd
    rcases this with h | h | h | h | h <;> simp [h]
  · exfalso
    have hdef : env.pkg q = pkg_default := by
      unfold Env.pkg
      exact List.getD_eq_default _ _ (Nat.le_of_not_lt hq)
    rw [hdef] at hd
    simp [pkg_default] at hd

theorem compound_loop_prov {fu : FU} (env : Env)
    (hfu : ∀ q u pr s r, fu q u pr s = some r →
      ∀ x ∈ (r.2.2.1).getD [], unresolved_from_depend env x)
    (i : Nat) (pc : Bool) (full : List (compound_depend_t Nat))
    (hfull : (env.pkg i).depends.getD [] = full)
    (hconf : ∀ c ∈ full, ¬ c.type = CONFLICTS) :
    ∀ (l : List (compound_depend_t Nat)) (idx : Nat) (st : Marks) (unsat : List Nat)
      (lost : Option (List String)),
      (∀ j c, find_cdep l j = some c → find_cdep full (idx + j) = some c) →
      (∀ x ∈ lost.getD [], unresolved_from_depend env x) →
      ∀ r, compound_loop fu env i pc l idx st unsat lost = some r →
        ∀ x ∈ (r.2.2).getD [], unresolved_from_depend env x := by
  intro l
  induction l with
  | nil =>
    intro idx st u lost hsuf hlost r h
    unfold compound_loop at h
    obtain rfl := Option.some.inj h
    exact hlost
  | cons cd rest ih =>
    intro idx st u lost hsuf hlost r h
    have hsuf' : ¬ cd.type = UNSPEC → ∀ j c, find_cdep rest j = some c →
        find_cdep full (idx + 1 + j) = some c := by
      intro hne j c hj
      have h2 := hsuf (j + 1) c (by
        unfold find_cdep
        rw [if_neg hne]
        exact hj)
      rw [show idx + (j + 1) = idx + 1 + j by omega] at h2
      exact h2
    unfold compound_loop at h
    by_cases hu : cd.type = UNSPEC
    · rw [if_pos hu] at h
      obtain rfl := Option.some.inj h
      exact hlost
    · rw [if_neg hu] at h
      by_cases hg : cd.type = GREEDY_DEPEND
      · rw [if_pos hg] at h
        cases hgp : greedy_poss_loop fu env pc cd.possibilities st u with
        | none => rw [hgp] at h; simp at h
        | some res =>
          rw [hgp] at h
          obtain ⟨st2, u2⟩ := res
          dsimp only at h
          exact ih (idx + 1) st2 u2 lost (hsuf' hu) hlost r h
      · rw [if_neg hg] at h
        cases hfi : find_installed_loop fu env cd.possibilities st with
        | none => rw [hfi] at h; simp at h
        | some res =>
          rw [hfi] at h
          obtain ⟨st2, found⟩ := res
          dsimp only at h
          by_cases hfd : found = true
          · rw [if_pos hfd] at h
            exact ih (idx + 1) st2 u lost (hsuf' hu) hlost r h
          · rw [if_neg hfd] at h
            cases hfs : find_satisfier_loop fu env cd.type cd.possibilities st2 with
            | none => rw [hfs] at h; simp at h
            | some res2 =>
              rw [hfs] at h
              obtain ⟨st3, satisfier⟩ := res2
              dsimp only at h
              cases satisfier with
              | none =>
                dsimp only at h
                by_cases hns : cd.type ≠ RECOMMEND ∧ cd.type ≠ SUGGEST
                · rw [if_pos hns] at h
                  have hfind : find_cdep full idx = some cd := by
                    have h0 := hsuf 0 cd (by
                      unfold find_cdep
                      rw [if_neg hu])
                    rwa [Nat.add_zero] at h0
                  have hnc : ¬ cd.type = CONFLICTS := hconf cd (find_cdep_mem full idx cd hfind)
                  have hdp : cd.type = DEPEND ∨ cd.type = PREDEPEND := by
                    obtain ⟨hns1, hns2⟩ := hns
                    cases hct : cd.type
                    · exact absurd hct hu
                    · exact Or.inl rfl
                    · exact Or.inr rfl
                    · exact absurd hct hns1
                    · exact absurd hct hns2
                    · exact absurd hct hg
                    · exact absurd hct hnc
                  have hlost' : ∀ x ∈ (add_unresolved_dep env i lost idx).getD [],
                      unresolved_from_depend env x := by
                    intro x hx
                    unfold add_unresolved_dep at hx
                    simp only [Option.getD_some] at hx
                    rw [List.mem_append] at hx
                    cases hx with
                    | inl hx2 => exact hlost x hx2
                    | inr hx2 =>
                      rw [List.mem_singleton] at hx2
                      subst hx2
                      refine ⟨i, idx, cd, ?_, rfl, hdp⟩
                      rw [hfull]
                      exact hfind
                  exact ih (idx + 1) st3 u _ (hsuf' hu) hlost' r h
                · rw [if_neg hns] at h
                  exact ih (idx + 1) st3 u lost (hsuf' hu) hlost r h
              | some sp =>
                dsimp only at h
                by_cases hsug : cd.type = SUGGEST
                · rw [if_pos hsug] at h
                  exact ih (idx + 1) st3 u lost (hsuf' hu) hlost r h
                · rw [if_neg hsug] at h
                  by_cases hok : sp ≠ i ∧ is_pkg_in_pkg_vec env u sp = false
                  · rw [if_pos hok] at h
                    cases hq : fu sp u pc st3 with
                    | none => rw [hq] at h; simp at h
                    | some res3 =>
                      rw [hq] at h
                      obtain ⟨st4, u4, newstuff, rc⟩ := res3
                      dsimp only at h
                      have hlost' : ∀ x ∈ (merge_unresolved lost newstuff).getD [],
                          unresolved_from_depend env x := by
                        intro x hx
                        unfold merge_unresolved at hx
                        cases newstuff with
                        | none => exact hlost x hx
                        | some ns =>
                          simp only [Option.getD_some] at hx
                          rw [List.mem_append] at hx
                          cases hx with
                          | inl hx2 => exact hlost x hx2
                          | inr hx2 => exact hfu sp u pc st3 _ hq x hx2
                      exact ih (idx + 1) st4 _ _ (hsuf' hu) hlost' r h
                  · rw [if_neg hok] at h
                    exact ih (idx + 1) st3 u lost (hsuf' hu) hlost r h

theorem pkg_hash_fetch_unsatisfied_dependencies_prov (env : Env) (hdep : dep_wf env) :
    ∀ fuel q u pr st r,
      pkg_hash_fetch_unsatisfied_dependencies fuel env q u pr st = some r →
      ∀ x ∈ (r.2.2.1).getD [], unresolved_from_depend env x := by
  intro fuel
  induction fuel with
  | zero => intro q u pr st r h; simp [pkg_hash_fetch_unsatisfied_dependencies] at h
  | succ fuel ih =>
    intro q u pr st r h
    unfold pkg_hash_fetch_unsatisfied_dependencies at h
    cases hp : (env.pkg q).parent with
    | none =>
      rw [hp] at h
      obtain rfl := Option.some.inj h
      intro x hx
      simp at hx
    | some ab =>
      rw [hp] at h
      dsimp only at h
      by_cases hmk : Marks.get st pr ab = true
      · rw [if_pos hmk] at h
        obtain rfl := Option.some.inj h
        intro x hx
        simp at hx
      · rw [if_neg hmk] at h
        cases hd : (env.pkg q).depends with
        | none =>
          rw [hd] at h
          obtain rfl := Option.some.inj h
          intro x hx
          simp at hx
        | some cds =>
          rw [hd] at h
          cases cds with
          | nil =>
            dsimp only at h
            obtain rfl := Option.some.inj h
            intro x hx
            simp at hx
          | cons c cs =>
            dsimp only at h
            by_cases hcu : c.type = UNSPEC
            · rw [if_pos hcu] at h
              obtain rfl := Option.some.inj h
              intro x hx
              simp at hx
            · rw [if_neg hcu] at h
              cases hcl : compound_loop
                  (fun q u pr s => pkg_hash_fetch_unsatisfied_dependencies fuel env q u pr s)
                  env q pr (c :: cs) 0 (Marks.set st pr ab) u none with
              | none => rw [hcl] at h; simp at h
              | some res =>
                rw [hcl] at h
                obtain ⟨st2, u2, lost⟩ := res
                dsimp only at h
                obtain rfl := Option.some.inj h
                intro x hx
                have hfull : (env.pkg q).depends.getD [] = c :: cs := by rw [hd]; rfl
                exact compound_loop_prov env (fun q2 u2 pr2 s2 r2 hr2 => ih q2 u2 pr2 s2 r2 hr2)
                  q pr (c :: cs) hfull (env_depends_nonconflict env hdep q (c :: cs) hd)
                  (c :: cs) 0 (Marks.set st pr ab) u none
                  (by intro j cc hj; rwa [Nat.zero_add]) (by intro y hy; simp at hy)
                  (st2, u2, lost) hcl x hx

/-- **C7.** Every string in the `unresolved` output of the dependency walk
prints a compound of some package's depends array whose type is DEPEND or
PREDEPEND — in particular a RECOMMEND or SUGGEST compound with no
satisfying candidate never contributes an entry (it is only logged), so
unresolved entries arise only from the hard dependency flavours. -/
theorem c7_unresolved_sources (env : Env) (fuel : Nat) (i : Nat) (unsat : List Nat)
    (pre_check : Bool) (st : Marks) (hdep : dep_wf env) (r : FUres)
    (h : pkg_hash_fetch_unsatisfied_dependencies fuel env i unsat pre_check st = some r) :
    ∀ s ∈ (r.2.2.1).getD [], unresolved_from_depend env s :=
  pkg_hash_fetch_unsatisfied_dependencies_prov env hdep fuel i unsat pre_check st r h

/-- The C7 theorem applied to the concrete environment where `a` carries
an unsatisfiable DEPEND on `b`: the reported string `"b"` prints that
DEPEND compound. -/
theorem c7_unresolved_sources_witness : unresolved_from_depend cexC7 "b" := by
  have hres : pkg_hash_fetch_unsatisfied_dependencies 3 cexC7 0 [] false marks0
      = some ((⟨∅, {0}⟩ : Marks), [], some ["b"], 0) := by decide
  exact c7_unresolved_sources cexC7 3 0 [] false marks0 (dep_wf_of_b (by decide))
    ((⟨∅, {0}⟩ : Marks), [], some ["b"], 0) hres "b" (by decide)

theorem getLast?_cons_isSome {α : Type} (r : α) (rs : List α) :
    ∃ x, (r :: rs).getLast? = some x := by
  induction rs generalizing r with
  | nil => exact ⟨r, rfl⟩
  | cons b bs ih =>
    obtain ⟨x, hx⟩ := ih b
    exact ⟨x, by rw [List.getLast?_cons_cons]; exact hx⟩

theorem getLast_or_shift {α : Type} (m : α) (l : List α) (y : Option α) :
    Option.or l.getLast? (some m) = Option.or (m :: l).getLast? y := by
  cases l with
  | nil => rfl
  | cons r rs =>
    obtain ⟨x, hx⟩ := getLast?_cons_isSome r rs
    rw [List.getLast?_cons_cons, hx]
    rfl

theorem select_loop_eq (env : Env) :
    ∀ (l : List Nat) (latest instp held : Option Nat),
      select_loop env l latest instp held
        = (Option.or (latest_matching_spec l) latest,
           Option.or (installed_parent_spec env l) instp,
           Option.or (held_pkg_spec env l) held) := by
  intro l
  induction l with
  | nil => intro l0 i0 h0; rfl
  | cons m rest ih =>
    intro l0 i0 h0
    unfold select_loop
    dsimp only
    rw [ih]
    unfold latest_matching_spec installed_parent_spec held_pkg_spec
    rw [getLast_or_shift m rest l0]
    by_cases hc : parent_status env m = SS_INSTALLED ∨ parent_status env m = SS_UNPACKED
    · rw [if_pos hc, List.filter_cons_of_pos (by simpa using hc),
        getLast_or_shift m (rest.filter fun x => decide (parent_status env x = SS_INSTALLED
          ∨ parent_status env x = SS_UNPACKED)) i0]
      by_cases hh : (env.pkg m).state_flag &&& (SF_HOLD ||| SF_PREFER) ≠ 0
      · rw [if_pos hh, List.filter_cons_of_pos (by simpa using hh),
          getLast_or_shift m (rest.filter fun x =>
            decide ((env.pkg x).state_flag &&& (SF_HOLD ||| SF_PREFER) ≠ 0)) h0]
      · rw [if_neg hh, List.filter_cons_of_neg (by simpa using hh)]
    · rw [if_neg hc, List.filter_cons_of_neg (by simpa using hc)]
      by_cases hh : (env.pkg m).state_flag &&& (SF_HOLD ||| SF_PREFER) ≠ 0
      · rw [if_pos hh, List.filter_cons_of_pos (by simpa using hh),
          getLast_or_shift m (rest.filter fun x =>
            decide ((env.pkg x).state_flag &&& (SF_HOLD ||| SF_PREFER) ≠ 0)) h0]
      · rw [if_neg hh, List.filter_cons_of_neg (by simpa using hh)]

theorem candidate_dispatch_eq (good held instp prio : Option Nat) (n : Nat)
    (latest : Option Nat) :
    candidate_dispatch good held instp prio n latest
      = (good <|> held <|> instp <|> prio <|> (if n > 1 then none else latest)) := by
  unfold candidate_dispatch
  cases good with
  | some g => rfl
  | none =>
    cases held with
    | some hd => rfl
    | none =>
      cases instp with
      | some ip => rfl
      | none =>
        cases prio with
        | some pr => rfl
        | none =>
          show (if n > 1 then (none : Option Nat) else if latest.isSome = true then latest else none)
            = (if n > 1 then none else latest)
          by_cases hn : n > 1
          · rw [if_pos hn, if_pos hn]
          · rw [if_neg hn, if_neg hn]
            cases latest <;> rfl

theorem gather_vec_loop_len {fu : FU} (env : Env) (l : List Nat) :
    ∀ st matching matchingA r,
      gather_vec_loop env fu l st matching matchingA = some r →
      matchingA.length = matching.length → (r.2.2).length = (r.2.1).length := by
  induction l with
  | nil =>
    intro st m a r h hl
    unfold gather_vec_loop at h
    obtain rfl := Option.some.inj h
    exact hl
  | cons x rest ih =>
    intro st m a r h hl
    unfold gather_vec_loop at h
    by_cases hc : pkg_get_arch_priority env x > 0 ∧ m.contains x = false
    · rw [if_pos hc] at h
      cases hq : check_unresolved_with fu x st with
      | none => rw [hq] at h; simp at h
      | some res =>
        rw [hq] at h
        obtain ⟨st2, bad⟩ := res
        dsimp only at h
        by_cases hb : bad = true
        · rw [if_pos hb] at h
          exact ih st2 m a r h hl
        · rw [if_neg hb] at h
          exact ih st2 _ _ r h (by simp [hl])
    · rw [if_neg hc] at h
      exact ih st m a r h hl

theorem gather_loop_len {fu : FU} (env : Env) (l : List Nat) (provs : List Nat) :
    ∀ st matching matchingA r,
      gather_loop env fu l provs st matching matchingA = some r →
      matchingA.length = matching.length → (r.2.2).length = (r.2.1).length := by
  induction l with
  | nil =>
    intro st m a r h hl
    unfold gather_loop at h
    obtain rfl := Option.some.inj h
    exact hl
  | cons p rest ih =>
    intro st m a r h hl
    unfold gather_loop at h
    cases ha : gather_actual env provs p with
    | none => rw [ha] at h; exact ih st m a r h hl
    | some ap =>
      rw [ha] at h
      dsimp only at h
      cases hp : (env.absD ap).pkgs with
      | none => rw [hp] at h; exact ih st m a r h hl
      | some vec =>
        rw [hp] at h
        dsimp only at h
        cases hv : gather_vec_loop env fu vec st m a with
        | none => rw [hv] at h; simp at h
        | some res =>
          rw [hv] at h
          obtain ⟨st2, m2, a2⟩ := res
          dsimp only at h
          exact ih st2 m2 a2 r h (gather_vec_loop_len env vec st m a (st2, m2, a2) hv hl)

/-- **C1.** Amended: when the gather phase produced at least one matching
package, the selector returns exactly the first non-empty of scored pick,
held package, installed-parent package, (quiet-gated) arch-priority winner
and — only when the ambiguity gate passes — the last match in sort order,
per `best_candidate_selection`; but the ambiguity gate `nmatching > 1`
counts the matching-abstracts vector, which receives one entry per
matching *package* (the matching-abstracts and matching-packages vectors
always have equal lengths), not per distinct abstract as the claim words
it — `c1_counterexample` exhibits two same-abstract matches where the
claim's distinct-abstract reading picks a candidate while the code returns
none. -/
theorem c1_selection_order (fu : FU) (env : Env) (pred : Nat → Bool) (quiet : Bool)
    (apkgId : Nat) (st : Marks) (apkg : abstract_pkg_t) (st1 : Marks)
    (matching : List Nat) (matchingA : List (Option Nat))
    (habs : env.abs[apkgId]? = some apkg)
    (hpv : ¬ apkg.provided_by.length = 0)
    (hg : gather_loop env fu apkg.provided_by apkg.provided_by st [] []
      = some (st1, matching, matchingA))
    (hnem : ¬ matching.length < 1) :
    matchingA.length = matching.length
      ∧ fetch_best_with fu env pred quiet apkgId st
        = some (st1, best_candidate_selection env pred quiet apkg.name
            (if matching.length > 1 then sort_le env.pkgLE matching else matching)
            matchingA.length) := by
  have hlen : matchingA.length = matching.length :=
    gather_loop_len env apkg.provided_by apkg.provided_by st [] []
      (st1, matching, matchingA) hg rfl
  refine ⟨hlen, ?_⟩
  unfold fetch_best_with
  rw [habs]
  dsimp only
  rw [if_neg hpv, hg]
  dsimp only
  rw [if_neg hnem, select_loop_eq]
  dsimp only
  simp only [Option.or_none]
  rw [candidate_dispatch_eq]
  unfold best_candidate_selection
  dsimp only

/-- The C1 theorem applied to the two-version environment of the
counterexample: both conjuncts are discharged at concrete inputs. -/
theorem c1_selection_order_witness :
    ([some 0, some 0] : List (Option Nat)).length = ([0, 1] : List Nat).length
      ∧ fetch_best_with
          (fun q u pr s => pkg_hash_fetch_unsatisfied_dependencies 10 cexC1 q u pr s)
          cexC1 (fun _ => false) true 0 marks0
        = some ((⟨{0}, ∅⟩ : Marks),
            best_candidate_selection cexC1 (fun _ => false) true cexC1_g.name
              (if ([0, 1] : List Nat).length > 1 then sort_le cexC1.pkgLE [0, 1] else [0, 1])
              ([some 0, some 0] : List (Option Nat)).length) :=
  c1_selection_order (fun q u pr s => pkg_hash_fetch_unsatisfied_dependencies 10 cexC1 q u pr s)
    cexC1 (fun _ => false) true 0 marks0 cexC1_g (⟨{0}, ∅⟩ : Marks) [0, 1] [some 0, some 0]
    (by decide) (by decide) (by decide) (by decide)

theorem env_pkg_oob (env : Env) (t : Nat) (ht : ¬ t < env.pkgs.length) :
    env.pkg t = pkg_default := by
  unfold Env.pkg
  exact List.getD_eq_default _ _ (Nat.le_of_not_lt ht)

theorem conflict_scout_step_sub (env : Env) (i : Nat) (poss : depend_t Nat) (acc : List Nat)
    (s t : Nat) (ht : t ∈ acc) : t ∈ conflict_scout_step env i poss acc s := by
  unfold conflict_scout_step
  by_cases hc : ((env.pkg s).state_status = SS_INSTALLED ∨ (env.pkg s).state_want = SW_INSTALL)
      ∧ version_constraints_satisfied env poss (env.pkg s) = true
      ∧ is_pkg_a_replaces env s i = false
  · rw [if_pos hc]
    by_cases hv : is_pkg_in_pkg_vec env acc s = true
    · rw [if_pos hv]
      exact ht
    · rw [if_neg hv]
      exact List.mem_append_left _ ht
  · rw [if_neg hc]
    exact ht

theorem conflict_scout_loop_sub (env : Env) (i : Nat) (poss : depend_t Nat) :
    ∀ (l : List Nat) (acc : List Nat) (t : Nat), t ∈ acc →
      t ∈ conflict_scout_loop env i poss acc l := by
  intro l
  induction l with
  | nil => intro acc t ht; exact ht
  | cons s rest ih =>
    intro acc t ht
    unfold conflict_scout_loop
    exact ih _ t (conflict_scout_step_sub env i poss acc s t ht)

theorem conflict_poss_loop_sub (env : Env) (i : Nat) :
    ∀ (pl : List (depend_t Nat)) (acc : List Nat) (t : Nat), t ∈ acc →
      t ∈ conflict_poss_loop env i acc pl := by
  intro pl
  induction pl with
  | nil => intro acc t ht; exact ht
  | cons p rest ih =>
    intro acc t ht
    unfold conflict_poss_loop
    cases hp : (env.absD p.pkg).pkgs with
    | none => exact ih acc t ht
    | some tv => exact ih _ t (conflict_scout_loop_sub env i p tv acc t ht)

theorem conflict_spec_loop_sub (env : Env) (i : Nat) :
    ∀ (cds : List (compound_depend_t Nat)) (acc : List Nat) (t : Nat), t ∈ acc →
      t ∈ conflict_spec_loop env i cds acc := by
  intro cds
  induction cds with
  | nil => intro acc t ht; exact ht
  | cons c rest ih =>
    intro acc t ht
    unfold conflict_spec_loop
    by_cases hu : c.type = UNSPEC
    · rw [if_pos hu]
      exact ht
    · rw [if_neg hu]
      exact ih _ t (conflict_poss_loop_sub env i c.possibilities acc t ht)

theorem conflict_scout_step_hit (env : Env) (i : Nat) (poss : depend_t Nat) (acc : List Nat)
    (s : Nat)
    (hcond : ((env.pkg s).state_status = SS_INSTALLED ∨ (env.pkg s).state_want = SW_INSTALL)
      ∧ version_constraints_satisfied env poss (env.pkg s) = true
      ∧ is_pkg_a_replaces env s i = false) :
    ∃ t, t ∈ conflict_scout_step env i poss acc s ∧ (env.pkg t).name = (env.pkg s).name := by
  unfold conflict_scout_step
  rw [if_pos hcond]
  by_cases hv : is_pkg_in_pkg_vec env acc s = true
  · rw [if_pos hv]
    unfold is_pkg_in_pkg_vec at hv
    rw [List.any_eq_true] at hv
    obtain ⟨j, hj, hprop⟩ := hv
    have hp := of_decide_eq_true hprop
    exact ⟨j, hj, hp.1.symm⟩
  · rw [if_neg hv]
    exact ⟨s, List.mem_append_right _ (List.mem_singleton.mpr rfl), rfl⟩

theorem conflict_scout_loop_hit (env : Env) (i : Nat) (poss : depend_t Nat) (sid : Nat)
    (hcond : ((env.pkg sid).state_status = SS_INSTALLED ∨ (env.pkg sid).state_want = SW_INSTALL)
      ∧ version_constraints_satisfied env poss (env.pkg sid) = true
      ∧ is_pkg_a_replaces env sid i = false) :
    ∀ (tv : List Nat) (acc : List Nat), sid ∈ tv →
      ∃ t, t ∈ conflict_scout_loop env i poss acc tv
        ∧ (env.pkg t).name = (env.pkg sid).name := by
  intro tv
  induction tv with
  | nil => intro acc h; simp at h
  | cons s rest ih =>
    intro acc hmem
    rw [List.mem_cons] at hmem
    unfold conflict_scout_loop
    cases hmem with
    | inl heq =>
      subst heq
      obtain ⟨t, htm, htn⟩ := conflict_scout_step_hit env i poss acc sid hcond
      exact ⟨t, conflict_scout_loop_sub env i poss rest _ t htm, htn⟩
    | inr hr => exact ih _ hr

theorem conflict_poss_loop_hit (env : Env) (i : Nat) (poss : depend_t Nat) (sid : Nat)
    (tv : List Nat)
    (hcond : ((env.pkg sid).state_status = SS_INSTALLED ∨ (env.pkg sid).state_want = SW_INSTALL)
      ∧ version_constraints_satisfied env poss (env.pkg sid) = true
      ∧ is_pkg_a_replaces env sid i = false)
    (htv : (env.absD poss.pkg).pkgs = some tv) (hsid : sid ∈ tv) :
    ∀ (pl : List (depend_t Nat)) (acc : List Nat), poss ∈ pl →
      ∃ t, t ∈ conflict_poss_loop env i acc pl
        ∧ (env.pkg t).name = (env.pkg sid).name := by
  intro pl
  induction pl with
  | nil => intro acc h; simp at h
  | cons p rest ih =>
    intro acc hmem
    rw [List.mem_cons] at hmem
    unfold conflict_poss_loop
    cases hmem with
    | inl heq =>
      subst heq
      rw [htv]
      obtain ⟨t, htm, htn⟩ := conflict_scout_loop_hit env i poss sid hcond tv acc hsid
      exact ⟨t, conflict_poss_loop_sub env i rest _ t htm, htn⟩
    | inr hr =>
      cases hp : (env.absD p.pkg).pkgs with
      | none => exact ih acc hr
      | some tv2 => exact ih _ hr

theorem conflict_spec_loop_hit (env : Env) (i : Nat) (cd : compound_depend_t Nat)
    (poss : depend_t Nat) (sid : Nat) (tv : List Nat)
    (hcond : ((env.pkg sid).state_status = SS_INSTALLED ∨ (env.pkg sid).state_want = SW_INSTALL)
      ∧ version_constraints_satisfied env poss (env.pkg sid) = true
      ∧ is_pkg_a_replaces env sid i = false)
    (hposs : poss ∈ cd.possibilities)
    (htv : (env.absD poss.pkg).pkgs = some tv) (hsid : sid ∈ tv) :
    ∀ (cds : List (compound_depend_t Nat)) (acc : List Nat), cd ∈ cds →
      (∀ c ∈ cds, ¬ c.type = UNSPEC) →
      ∃ t, t ∈ conflict_spec_loop env i cds acc
        ∧ (env.pkg t).name = (env.pkg sid).name := by
  intro cds
  induction cds with
  | nil => intro acc h _; simp at h
  | cons c rest ih =>
    intro acc hmem htys
    rw [List.mem_cons] at hmem
    unfold conflict_spec_loop
    rw [if_neg (htys c (List.mem_cons_self c rest))]
    cases hmem with
    | inl heq =>
      subst heq
      obtain ⟨t, htm, htn⟩ :=
        conflict_poss_loop_hit env i poss sid tv hcond htv hsid cd.possibilities acc hposs
      exact ⟨t, conflict_spec_loop_sub env i rest _ t htm, htn⟩
    | inr hr =>
      exact ih _ hr (fun c2 hc2 => htys c2 (List.mem_cons_of_mem c hc2))

theorem conflict_scout_step_sound (env : Env) (i : Nat) (poss : depend_t Nat)
    (acc : List Nat) (s t : Nat) (ht : t ∈ conflict_scout_step env i poss acc s) :
    t ∈ acc ∨ is_pkg_a_replaces env t i = false := by
  unfold conflict_scout_step at ht
  by_cases hc : ((env.pkg s).state_status = SS_INSTALLED ∨ (env.pkg s).state_want = SW_INSTALL)
      ∧ version_constraints_satisfied env poss (env.pkg s) = true
      ∧ is_pkg_a_replaces env s i = false
  · rw [if_pos hc] at ht
    by_cases hv : is_pkg_in_pkg_vec env acc s = true
    · rw [if_pos hv] at ht
      exact Or.inl ht
    · rw [if_neg hv] at ht
      rw [List.mem_append] at ht
      cases ht with
      | inl h2 => exact Or.inl h2
      | inr h2 =>
        rw [List.mem_singleton] at h2
        subst h2
        exact Or.inr hc.2.2
  · rw [if_neg hc] at ht
    exact Or.inl ht

theorem conflict_scout_loop_sound (env : Env) (i : Nat) (poss : depend_t Nat) :
    ∀ (l : List Nat) (acc : List Nat) (t : Nat), t ∈ conflict_scout_loop env i poss acc l →
      t ∈ acc ∨ is_pkg_a_replaces env t i = false := by
  intro l
  induction l with
  | nil => intro acc t ht; exact Or.inl ht
  | cons s rest ih =>
    intro acc t ht
    unfold conflict_scout_loop at ht
    cases ih _ t ht with
    | inl h2 => exact conflict_scout_step_sound env i poss acc s t h2
    | inr h2 => exact Or.inr h2

theorem conflict_poss_loop_sound (env : Env) (i : Nat) :
    ∀ (pl : List (depend_t Nat)) (acc : List Nat) (t : Nat),
      t ∈ conflict_poss_loop env i acc pl →
      t ∈ acc ∨ is_pkg_a_replaces env t i = false := by
  intro pl
  induction pl with
  | nil => intro acc t ht; exact Or.inl ht
  | cons p rest ih =>
    intro acc t ht
    unfold conflict_poss_loop at ht
    cases hp : (env.absD p.pkg).pkgs with
    | none =>
      rw [hp] at ht
      exact ih acc t ht
    | some tv =>
      rw [hp] at ht
      cases ih _ t ht with
      | inl h2 => exact conflict_scout_loop_sound env i p tv acc t h2
      | inr h2 => exact Or.inr h2

theorem conflict_spec_loop_sound (env : Env) (i : Nat) :
    ∀ (cds : List (compound_depend_t Nat)) (acc : List Nat) (t : Nat),
      t ∈ conflict_spec_loop env i cds acc →
      t ∈ acc ∨ is_pkg_a_replaces env t i = false := by
  intro cds
  induction cds with
  | nil => intro acc t ht; exact Or.inl ht
  | cons c rest ih =>
    intro acc t ht
    unfold conflict_spec_loop at ht
    by_cases hu : c.type = UNSPEC
    · rw [if_pos hu] at ht
      exact Or.inl ht
    · rw [if_neg hu] at ht
      cases ih _ t ht with
      | inl h2 => exact conflict_poss_loop_sound env i c.possibilities acc t h2
      | inr h2 => exact Or.inr h2

theorem pkg_hash_fetch_conflicts_sound (env : Env) (i : Nat) (t : Nat)
    (ht : t ∈ (pkg_hash_fetch_conflicts env i).getD []) :
    is_pkg_a_replaces env t i = false := by
  unfold pkg_hash_fetch_conflicts at ht
  cases hpar : (env.pkg i).parent with
  | none => rw [hpar] at ht; simp at ht
  | some par =>
    rw [hpar] at ht
    dsimp only at ht
    cases hcon : (env.pkg i).conflicts with
    | none => rw [hcon] at ht; simp at ht
    | some cds =>
      rw [hcon] at ht
      dsimp only at ht
      rw [conflict_lockstep_spec_eq] at ht
      by_cases hne : (conflict_spec_loop env i cds []).length ≠ 0
      · rw [if_pos hne] at ht
        cases conflict_spec_loop_sound env i cds [] t ht with
        | inl h2 => simp at h2
        | inr h2 => exact h2
      · rw [if_neg hne] at ht
        simp at ht

/-- **C5.** Amended: a scout `S` that is installed (or wanted-install) and
satisfies one of `P`'s conflict constraints contributes an entry bearing
its name to the conflicts vector exactly when `is_pkg_a_replaces` rejects
it — that is, when `S`'s *name* matches none of the abstracts in `P`'s
replaces array.  This is not the claim's provides-intersection
`pkg_replaces`: `c5_counterexample` exhibits a scout whose provides meet
`P`'s replaces (so the claim predicts exclusion) yet which is returned
because its own name is not replaced.  Name uniqueness makes the
equivalence two-sided. -/
theorem c5_exclusion_iff (env : Env) (i sid par : Nat) (cds : List (compound_depend_t Nat))
    (cd : compound_depend_t Nat) (poss : depend_t Nat) (tv : List Nat)
    (hpar : (env.pkg i).parent = some par)
    (hcon : (env.pkg i).conflicts = some cds)
    (htypes : ∀ c ∈ cds, ¬ c.type = UNSPEC)
    (hcd : cd ∈ cds) (hposs : poss ∈ cd.possibilities)
    (htv : (env.absD poss.pkg).pkgs = some tv) (hsid : sid ∈ tv)
    (hstat : (env.pkg sid).state_status = SS_INSTALLED ∨ (env.pkg sid).state_want = SW_INSTALL)
    (hver : version_constraints_satisfied env poss (env.pkg sid) = true)
    (hnn : ¬ (env.pkg sid).name = "")
    (hname : ∀ t, t < env.pkgs.length → (env.pkg t).name = (env.pkg sid).name → t = sid) :
    ((∃ t, t ∈ (pkg_hash_fetch_conflicts env i).getD []
        ∧ (env.pkg t).name = (env.pkg sid).name)
      ↔ is_pkg_a_replaces env sid i = false) := by
  constructor
  · rintro ⟨t, htm, htn⟩
    have ht' : t = sid := by
      by_cases hlt : t < env.pkgs.length
      · exact hname t hlt htn
      · exfalso
        rw [env_pkg_oob env t hlt] at htn
        exact hnn htn.symm
    subst ht'
    exact pkg_hash_fetch_conflicts_sound env i t htm
  · intro hrep
    obtain ⟨t, htm, htn⟩ := conflict_spec_loop_hit env i cd poss sid tv
      ⟨hstat, hver, hrep⟩ hposs htv hsid cds [] hcd htypes
    unfold pkg_hash_fetch_conflicts
    rw [hpar]
    dsimp only
    rw [hcon]
    dsimp only
    rw [conflict_lockstep_spec_eq]
    have hne : (conflict_spec_loop env i cds []).length ≠ 0 := by
      intro h0
      rw [List.length_eq_zero] at h0
      rw [h0] at htm
      simp at htm
    rw [if_pos hne]
    exact ⟨t, htm, htn⟩

/-- The C5 theorem applied to the counterexample environment: the
installed scout `s` (index 1) satisfies `p`'s conflict constraint and is
not a replaces target by name, so the returned vector carries its name. -/
theorem c5_exclusion_iff_witness :
    (∃ t, t ∈ (pkg_hash_fetch_conflicts cexC5 0).getD []
        ∧ (cexC5.pkg t).name = (cexC5.pkg 1).name)
      ↔ is_pkg_a_replaces cexC5 1 0 = false :=
  c5_exclusion_iff cexC5 0 1 0
    [⟨CONFLICTS, [⟨NONE, none, 0⟩]⟩] ⟨CONFLICTS, [⟨NONE, none, 0⟩]⟩ ⟨NONE, none, 0⟩ [1]
    (by decide) (by decide) (by decide) (by decide) (by decide) (by decide) (by decide)
    (by decide) (by decide) (by decide)
    (by decide)
